import Mathlib

/-!
Verification development for the psimpl repository (src/psimpl/psimpl.py and
src/psimpl/psimpl_lib.py): a shallow embedding of the missing-value
detection, matrix loading, imputation and PIN-file rewriting code, together
with theorems settling the frozen claims about it.

Modelling conventions:
* A cell of the tab-delimited file is a RawVal: RawVal.num q stands for a
  field whose text the Python builtin float() parses to the value q, and
  RawVal.str s for a field whose text (s) float() rejects.  The claims never
  depend on exotic float syntax (nan, inf, exponents), so abstracting the
  parse by its result is faithful for every input used here.
* Python exceptions and exit() calls are modelled by the Except monad with
  the PyErr error type; exit(n) becomes PyErr.exitCode n.
* csv.DictReader is modelled by zipping the header with the list of fields
  of a row; rows in every claim have exactly one field per header name.
  (DictReader pads short rows with None and collects extra fields under a
  None key; no claim exercises either path, see the comments at the use
  sites.)
* CPython set iteration order is unspecified; tracker.features is therefore
  modelled as an insertion-ordered duplicate-free list, and set.pop as its
  head.  No claim depends on which element pop returns.
* numpy matrices are lists of rows (List (List Rat)); the regression fit or
  predict primitive of sklearn is an external capability per the spec and is
  a parameter (FitPredict) of the imputation code.
-/

/-- A raw field of the input file, abstracted by whether the Python float()
builtin parses its text: num q is a field parsing to q, str s a field whose
text s does not parse as a float. -/
inductive RawVal where
  | num (q : ℚ)
  | str (s : String)
deriving DecidableEq, Repr

/-- Result of the Python float() builtin on a raw field. -/
def pyFloat? : RawVal → Option ℚ
  | .num q => some q
  | .str _ => none

/-- Result of the Python int() builtin on a raw field: an integral numeric
field parses, everything else raises ValueError.  (Python also rejects the
text 1.0 for int(); the labels appearing in the claims are plain integer or
non-numeric literals, for which this model is exact.) -/
def pyInt? : RawVal → Option ℤ
  | .num q => if q.den = 1 then some q.num else none
  | .str _ => none

/-- Rendering of a field by the Python str() builtin, as used when a parsed
or imputed value is written back out. -/
def RawVal.render : RawVal → String
  | .num q => toString q
  | .str s => s

/-- Python exceptions and process exits, as they occur in psimpl. -/
inductive PyErr where
  | nameError (n : String)
  | keyError (k : String)
  | valueError (m : String)
  | assertionError (m : String)
  | indexError (m : String)
  | exitCode (n : ℤ)
deriving DecidableEq, Repr

deriving instance DecidableEq for Except

/-- One data row of the file: its fields in file order. -/
abbrev Row := List RawVal

/-- A parsed tab-delimited (PIN) file: the header fields and the data rows. -/
structure PinFile where
  header : List String
  rows : List Row
deriving DecidableEq, Repr

/-- Lookup in the per-row dict built by csv.DictReader: the header zipped
with the row fields.  A duplicated header name keeps the last pairing, as
dict(zip(header, row)) does; headers in all claims are duplicate-free. -/
def dictGet (header : List String) (row : Row) (k : String) : Option RawVal :=
  ((header.zip row).reverse).lookup k

/-- Membership of a raw field in the recognized missing-value marker list.
The check l[k] in missingValues is only reached after float() failed, hence
on str fields; a num field never equals the markers NA or na. -/
def isMissingMarker (v : RawVal) (missingValues : List String) : Bool :=
  match v with
  | .num _ => false
  | .str s => missingValues.contains s

/-- Class missing_value_tracker of psimpl_lib.py: missing-value bookkeeping
for the feature matrix.  features is the CPython set self.features, modelled
as an insertion-ordered duplicate-free list; feature_mat_indices_psmIds is
the list of (row, col, psmId) triples, one appended per missing cell. -/
structure missing_value_tracker where
  missingValues : List String
  features : List String
  feature_mat_indices_psmIds : List (ℕ × ℕ × RawVal)
deriving DecidableEq, Repr

/-- Constructor missing_value_tracker(missingValueList). -/
def missing_value_tracker.init (missingValueList : List String := ["NA", "na"]) :
    missing_value_tracker :=
  { missingValues := missingValueList.dedup
    features := []
    feature_mat_indices_psmIds := [] }

/-- Method found_missing_value: add the feature name to the features set and
append the (row, col, psmId) triple. -/
def missing_value_tracker.found_missing_value (t : missing_value_tracker)
    (feature_name : String) (row col : ℕ) (psmId : RawVal) : missing_value_tracker :=
  { t with
    features := if feature_name ∈ t.features then t.features else t.features ++ [feature_name]
    feature_mat_indices_psmIds := t.feature_mat_indices_psmIds ++ [(row, col, psmId)] }

/-- Method get_missing_cols: list(set(j for (_, j, _) in triples)).  The
CPython set gives some duplicate-free enumeration; dedup realizes one
admissible order (the claims are order-insensitive here). -/
def missing_value_tracker.get_missing_cols (t : missing_value_tracker) : List ℕ :=
  (t.feature_mat_indices_psmIds.map (fun x => x.2.1)).dedup

/-- Method get_missing_rows: the list comprehension [i for (i, _, _) in
triples], with no deduplication. -/
def missing_value_tracker.get_missing_rows (t : missing_value_tracker) : List ℕ :=
  t.feature_mat_indices_psmIds.map (fun x => x.1)

/-- Method get_missing_psmIds. -/
def missing_value_tracker.get_missing_psmIds (t : missing_value_tracker) : List RawVal :=
  t.feature_mat_indices_psmIds.map (fun x => x.2.2)

/-- Method get_features_with_missing_values: returns the features set. -/
def missing_value_tracker.get_features_with_missing_values (t : missing_value_tracker) :
    List String :=
  t.features

/-- Identifier-field resolution of find_missingVals (and of the matrix
loader): SpecId if present, else PSMId, with no presence check for PSMId. -/
def fm_psmIdField (header : List String) : String :=
  if "SpecId" ∈ header then "SpecId" else "PSMId"

/-- Peptide-field resolution of find_missingVals and of the matrix loader:
peptide, else Peptide, else an assertion failure. -/
def fm_peptideKey (header : List String) : Except PyErr String :=
  if "peptide" ∈ header then .ok "peptide"
  else if "Peptide" ∈ header then .ok "Peptide"
  else .error (.assertionError "PIN file does not contain peptide column, exitting")

/-- Protein-field resolution of find_missingVals: proteinIds, else Proteins,
else an assertion failure.  (The name Protein is not accepted here.) -/
def fm_proteinKey (header : List String) : Except PyErr String :=
  if "proteinIds" ∈ header then .ok "proteinIds"
  else if "Proteins" ∈ header then .ok "Proteins"
  else .error (.assertionError "PIN file does not contain protein column, exitting")

/-- Protein-field resolution of load_percolator_feature_matrix_with_nas:
Protein, else Proteins, else proteinIds, else exit(-1). -/
def load_proteinKey (header : List String) : Except PyErr String :=
  if "Protein" ∈ header then .ok "Protein"
  else if "Proteins" ∈ header then .ok "Proteins"
  else if "proteinIds" ∈ header then .ok "proteinIds"
  else .error (.exitCode (-1))

/-- Protein-field resolution of the write pass of impute_and_write_pin_file:
Protein, else Proteins, else exit(-1).  (proteinIds is not accepted.) -/
def writer_proteinKey (header : List String) : Except PyErr String :=
  if "Protein" ∈ header then .ok "Protein"
  else if "Proteins" ∈ header then .ok "Proteins"
  else .error (.exitCode (-1))

/-- Feature-column list: the header fields, in order, that are not among the
resolved non-feature keys and are not empty (find_missingVals and the matrix
loader both skip empty header names). -/
def featureKeys (header : List String) (nonFeatureKeys : List String) : List String :=
  header.filter (fun k => !nonFeatureKeys.contains k && !(k == ""))

/-- Feature loop of one find_missingVals record (psimpl_lib.py lines
411-423): walk the feature keys in order, j the position within that list;
a cell parsing as float is stored in el; a non-parsing cell equal to a
recognized marker stores the 0.0 placeholder and records the (row, col,
psmId) triple in the tracker; any other non-parsing cell is exit(-3).
A key absent from the row dict is a lookup failure (Python would pad a
short row with None and then fail on float(None); no claim uses short
rows). -/
def fm_featLoop (hdr : List String) (row : Row) (i : ℕ) (psmId : RawVal) :
    List (ℕ × String) → List ℚ → missing_value_tracker →
    Except PyErr (List ℚ × missing_value_tracker)
  | [], el, t => .ok (el, t)
  | (j, k) :: rest, el, t =>
    match dictGet hdr row k with
    | none => .error (.keyError k)
    | some v =>
      match pyFloat? v with
      | some q => fm_featLoop hdr row i psmId rest (el ++ [q]) t
      | none =>
        if isMissingMarker v t.missingValues then
          fm_featLoop hdr row i psmId rest (el ++ [0])
            (t.found_missing_value k i j psmId)
        else .error (.exitCode (-3))

/-- Processing of one find_missingVals record (psimpl_lib.py lines
397-423): read the identifier field (a KeyError when the resolved name is
not a header field), parse and range-check the Label, then run the feature
loop.  The el list is discarded by find_missingVals, which only keeps the
tracker.  (The reattachment of extra unkeyed fields onto the protein field
touches only the protein value, which this pass never reads; it is
omitted.) -/
def fm_processRow (hdr : List String) (keys : List String) (i : ℕ) (row : Row)
    (t : missing_value_tracker) : Except PyErr missing_value_tracker := do
  let psmId ← match dictGet hdr row (fm_psmIdField hdr) with
    | none => .error (.keyError (fm_psmIdField hdr))
    | some v => .ok v
  let labelv ← match dictGet hdr row "Label" with
    | none => .error (.keyError "Label")
    | some v => .ok v
  let y ← match pyInt? labelv with
    | none => .error (.exitCode (-1))
    | some y => .ok y
  if y ≠ 1 ∧ y ≠ -1 then .error (.exitCode (-2))
  else do
    let (_el, t') ← fm_featLoop hdr row i psmId (keys.enum) [] t
    .ok t'

/-- Row loop of find_missingVals: fold fm_processRow over the data rows,
numbering them from i0. -/
def fm_rows (hdr : List String) (keys : List String) :
    List Row → ℕ → missing_value_tracker → Except PyErr missing_value_tracker
  | [], _, t => .ok t
  | row :: rest, i, t => do
    let t' ← fm_processRow hdr keys i row t
    fm_rows hdr keys rest (i + 1) t'

/-- Function find_missingVals of psimpl_lib.py: resolve the header roles,
build the ordered feature-key list, and run the detection pass, returning
the missing-value tracker.  The assert on the intersection of the
non-feature keys with the header can no longer fail once the peptide and
protein keys resolved (they are header members), but it is kept for
faithfulness. -/
def find_missingVals (file : PinFile)
    (missingValueList : List String := ["NA", "na"]) :
    Except PyErr missing_value_tracker := do
  let h := file.header
  let psmF := fm_psmIdField h
  let pepK ← fm_peptideKey h
  let protK ← fm_proteinKey h
  let nonFeatureKeys := [psmF, "Label", pepK, protK]
  if nonFeatureKeys.filter (fun k => h.contains k) = [] then
    .error (.assertionError "does not contain proper fields")
  else
    let keys := featureKeys h nonFeatureKeys
    fm_rows h keys file.rows 0 (missing_value_tracker.init missingValueList)

/-- Splitting of a string on every occurrence of a separator character, the
Python str.split with a one-character separator (empty parts kept, and the
empty string splitting to one empty part). -/
def splitOnChar (sep : Char) (s : String) : List String :=
  (s.toList.foldr (fun c acc =>
    match acc with
    | g :: gs => if c = sep then [] :: g :: gs else (c :: g) :: gs
    | [] => [[c]]) [[]]).map String.mk

/-- The Python slice s[:-n]: the string without its last n characters. -/
def strDropEnd (s : String) (n : ℕ) : String :=
  String.mk (s.toList.take (s.toList.length - n))

/-- The protein attribute of a PSM: a single protein string, or (when the
field contained tabs) the CPython set of the parts, modelled as the
duplicate-free list of parts in first-occurrence order. -/
inductive ProteinField where
  | single (s : String)
  | multiple (ss : List String)
deriving DecidableEq, Repr

/-- Class PSM of psimpl_lib.py. -/
structure PSM where
  peptide : String
  psmId : String
  left_flanking_aa : String
  right_flanking_aa : String
  protein : ProteinField
deriving DecidableEq, Repr

/-- Constructor PSM(psmId, sequence, protein): split the protein field on
tabs (str.split never yields an empty list, so the ValueError branch of the
source is unreachable); split the sequence on dots and, when flanking parts
are present, keep part 0 and the last part as flanks and part 1 as the
peptide. -/
def PSM.make (psmId sequence protein : String) : PSM :=
  let l := splitOnChar '\t' protein
  let prot : ProteinField :=
    if l.length = 1 then .single (l.headD "") else .multiple l.dedup
  let s := splitOnChar '.' sequence
  if s.length > 1 then
    { peptide := s.getD 1 ""
      psmId := psmId
      left_flanking_aa := s.getD 0 ""
      right_flanking_aa := s.getLastD ""
      protein := prot }
  else
    { peptide := sequence
      psmId := psmId
      left_flanking_aa := ""
      right_flanking_aa := ""
      protein := prot }

/-- Feature loop of one matrix-loader record (psimpl_lib.py lines 504-513):
a cell in a missing row whose column name is a missing feature is forced to
0.0 without looking at its raw value; every other cell must parse as a
float, else exit(-3). -/
def load_featLoop (hdr : List String) (row : Row) (i : ℕ)
    (na_rows : List ℕ) (na_features : List String) :
    List String → List ℚ → Except PyErr (List ℚ)
  | [], el => .ok el
  | k :: rest, el =>
    if i ∈ na_rows ∧ k ∈ na_features then
      load_featLoop hdr row i na_rows na_features rest (el ++ [0])
    else
      match dictGet hdr row k with
      | none => .error (.keyError k)
      | some v =>
        match pyFloat? v with
        | some q => load_featLoop hdr row i na_rows na_features rest (el ++ [q])
        | none => .error (.exitCode (-3))

/-- Row loop of the matrix loader: label parse and range check, the feature
loop, optional bias column, and the PSM string info, accumulating the
feature rows, label vector and PSM list. -/
def load_rows (hdr : List String) (keys : List String) (includeBias : Bool)
    (na_rows : List ℕ) (na_features : List String)
    (psmF pepK protK : String) :
    List Row → ℕ → List (List ℚ) → List ℤ → List PSM →
    Except PyErr (List (List ℚ) × List ℤ × List PSM)
  | [], _, features, Y, psmStringInfo => .ok (features, Y, psmStringInfo)
  | row :: rest, i, features, Y, psmStringInfo => do
    let labelv ← match dictGet hdr row "Label" with
      | none => .error (.keyError "Label")
      | some v => .ok v
    let y ← match pyInt? labelv with
      | none => .error (.exitCode (-1))
      | some y => .ok y
    if y ≠ 1 ∧ y ≠ -1 then .error (.exitCode (-2))
    else do
      let el ← load_featLoop hdr row i na_rows na_features keys []
      let el := if includeBias then el ++ [1] else el
      let idv ← match dictGet hdr row psmF with
        | none => .error (.keyError psmF)
        | some v => .ok v
      let pepv ← match dictGet hdr row pepK with
        | none => .error (.keyError pepK)
        | some v => .ok v
      let protv ← match dictGet hdr row protK with
        | none => .error (.keyError protK)
        | some v => .ok v
      let psmInfo := PSM.make (RawVal.render idv) (RawVal.render pepv) (RawVal.render protv)
      load_rows hdr keys includeBias na_rows na_features psmF pepK protK rest (i + 1)
        (features ++ [el]) (Y ++ [y]) (psmStringInfo ++ [psmInfo])

/-- Function load_percolator_feature_matrix_with_nas of psimpl_lib.py:
resolve the header roles (with its own protein-synonym order), build the
ordered feature-key list, and load the dense matrix, forcing cells of
missing rows in missing-feature columns to 0.0.  Returns the matrix, label
vector, PSM info and the feature keys.  (countUniquePeptides only drives a
print and is omitted; the callers pass the default False.) -/
def load_percolator_feature_matrix_with_nas (file : PinFile)
    (includeBias : Bool := true)
    (na_rows : List ℕ := []) (na_features : List String := []) :
    Except PyErr (List (List ℚ) × List ℤ × List PSM × List String) := do
  let h := file.header
  let psmF := fm_psmIdField h
  let pepK ← fm_peptideKey h
  let protK ← load_proteinKey h
  let nonFeatureKeys := [psmF, "Label", pepK, protK]
  if nonFeatureKeys.filter (fun k => h.contains k) = [] then
    .error (.assertionError "does not contain proper fields")
  else do
    let keys := featureKeys h nonFeatureKeys
    let (features, Y, psmStringInfo) ←
      load_rows h keys includeBias na_rows na_features psmF pepK protK file.rows 0 [] [] []
    .ok (features, Y, psmStringInfo, keys)

/-- An sklearn regression model object as constructed by
impute_given_original_feature_matrix. -/
inductive SkRegressor where
  | LinearRegression (normalize : Bool)
  | Ridge (alpha : ℚ)
  | Lasso (alpha : ℚ)
  | ElasticNet (alpha : ℚ) (l1_r : ℚ)
deriving DecidableEq, Repr

/-- The external regression capability (sklearn fit plus predict): given the
model object, the training inputs, the training targets and the test inputs,
the flattened (reshape(-1)) prediction vector. -/
abbrev FitPredict :=
  SkRegressor → List (List ℚ) → List (List ℚ) → List (List ℚ) → List ℚ

/-- Model selection of impute_given_original_feature_matrix (psimpl_lib.py
lines 168-174): LinearRegression(normalize=True) unless the regressor string
selects Ridge, Lasso or ElasticNet.  The source parameter l1_ratio is named
l1_r here. -/
def choose_regressor (regressor : String) (alpha l1_r : ℚ) : SkRegressor :=
  if regressor == "Ridge" then .Ridge alpha
  else if regressor == "Lasso" then .Lasso alpha
  else if regressor == "ElasticNet" then .ElasticNet alpha l1_r
  else .LinearRegression true

/-- Submatrix selection, numpy feature_matrix[np.ix_(rs, cs)].  All uses are
in range; an out-of-range index defaults to 0 rather than modelling the
numpy IndexError, which no claim exercises. -/
def submatrix (M : List (List ℚ)) (rs cs : List ℕ) : List (List ℚ) :=
  rs.map (fun i => cs.map (fun j => (M.getD i []).getD j 0))

/-- Last-write-wins lookup in an association list, the semantics of a Python
dict built by repeated assignment. -/
def dictLookupLast (m : List (ℕ × ℚ)) (i : ℕ) : Option ℚ :=
  m.reverse.lookup i

/-- Result of impute_given_original_feature_matrix: the model that was fit
and the imputed-value dict (row index to predicted scalar). -/
structure ImputeResult where
  regressor_used : SkRegressor
  imputed_vals_dict : List (ℕ × ℚ)
deriving DecidableEq, Repr

/-- Function impute_given_original_feature_matrix of psimpl_lib.py: select
the model, split rows into full and missing and columns into nonmissing and
missing, fit on the full rows, predict the missing rows, and zip the
flattened predictions with the missing row indices into a dict.  The numpy
shape (nr, nc) is the row count and the length of the first row (the
matrices built by the loader are rectangular). -/
def impute_given_original_feature_matrix (fp : FitPredict)
    (feature_matrix : List (List ℚ)) (na_rows : List ℕ) (na_cols : List ℕ)
    (regressor : String := "LinearRegression")
    (alpha : ℚ := 1) ( l1_r : ℚ := 1/2) : ImputeResult :=
  let linr := choose_regressor regressor alpha l1_r
  let nr := feature_matrix.length
  let nc := (feature_matrix.headD []).length
  let missing_rows := na_rows
  let full_rows := (List.range nr).filter (fun i => !na_rows.contains i)
  let nonmissing_columns := (List.range nc).filter (fun j => !na_cols.contains j)
  let X := submatrix feature_matrix full_rows nonmissing_columns
  let Y := submatrix feature_matrix full_rows na_cols
  let testX := submatrix feature_matrix missing_rows nonmissing_columns
  let imputed_vals := fp linr X Y testX
  { regressor_used := linr
    imputed_vals_dict := (imputed_vals.zip missing_rows).map (fun x => (x.2, x.1)) }

/-- Extension of a path as computed by os.path.splitext: the part of the
base name from its last dot, where leading dots of the base name do not
begin an extension. -/
def splitext_ext (s : String) : String :=
  let base := s.toList.foldl (fun acc c => if c = '/' then [] else acc ++ [c]) []
  let rest := base.dropWhile (fun c => c = '.')
  if rest.contains '.' then
    String.mk ('.' :: (rest.reverse.takeWhile (fun c => c ≠ '.')).reverse)
  else ""

/-- Whether checkGzip_openfile opens a path with gzip: exactly when its
splitext extension is .gz. -/
def checkGzip_opensGzip (filename : String) : Bool :=
  splitext_ext filename == ".gz"

/-- Debugging collections of the write pass (the _impute_debug block):
the broken-constraint counter and the four value lists. -/
structure DebugState where
  broken_constraints : ℕ
  non_imputed_vals : List ℚ
  imputed_vals : List ℚ
  target_imputed_vals : List ℚ
  decoy_imputed_vals : List ℚ
deriving DecidableEq, Repr

/-- Initial debugging state: counter 0, all lists empty. -/
def DebugState.init : DebugState :=
  { broken_constraints := 0
    non_imputed_vals := []
    imputed_vals := []
    target_imputed_vals := []
    decoy_imputed_vals := []}

/-- Field writing of one output row (psimpl_lib.py lines 311-318): look up
every output column in the row dict, in order, failing with a KeyError at
the first absent one. -/
def writer_fields (d : String → Option RawVal) : List String → Except PyErr (List RawVal)
  | [] => .ok []
  | k :: ks =>
    match d k with
    | none => .error (.keyError k)
    | some v => (writer_fields d ks).map (fun fs => v :: fs)

/-- Debug block of one write-pass row (psimpl_lib.py lines 290-309), run on
the (possibly already imputed) row dict d.  For a row with an imputed value
v: append v, read and float-parse the hard-coded reference column, count a
broken constraint when both values are nonzero and v is below the reference,
then split v by the integer label, exiting on a label outside 1 and -1.  For
any other row: append the float-parsed value of the imputed feature column.
Python prints on a broken constraint; printing is not modelled. -/
def writer_debug_update (d : String → Option RawVal) (vimp : Option ℚ)
    (na_feat ref_key : String) (st : DebugState) : Except PyErr DebugState :=
  match vimp with
  | some v =>
    match d ref_key with
    | none => .error (.keyError ref_key)
    | some rv =>
      match pyFloat? rv with
      | none => .error (.valueError "could not convert string to float")
      | some rk =>
        let st := { st with
          imputed_vals := st.imputed_vals ++ [v]
          broken_constraints := st.broken_constraints +
            (if rk ≠ 0 ∧ v ≠ 0 ∧ v < rk then 1 else 0) }
        match d "Label" with
        | none => .error (.keyError "Label")
        | some lv =>
          match pyInt? lv with
          | none => .error (.valueError "invalid literal for int")
          | some y =>
            if y = 1 then
              .ok { st with target_imputed_vals := st.target_imputed_vals ++ [v] }
            else if y = -1 then
              .ok { st with decoy_imputed_vals := st.decoy_imputed_vals ++ [v] }
            else .error (.exitCode (-1))
  | none =>
    match d na_feat with
    | none => .error (.keyError na_feat)
    | some nv =>
      match pyFloat? nv with
      | none => .error (.valueError "could not convert string to float")
      | some q => .ok { st with non_imputed_vals := st.non_imputed_vals ++ [q] }

/-- Row dict of the write pass after the imputation substitution: when the
row was flagged (vimp = some v), the designated feature column reads the
imputed value, every other key reads the original field. -/
def writer_row_dict (hdr : List String) (row : Row) (vimp : Option ℚ)
    (na_feat : String) (k : String) : Option RawVal :=
  match vimp with
  | some v => if k == na_feat then some (RawVal.num v) else dictGet hdr row k
  | none => dictGet hdr row k

/-- Write-pass processing of one data row (psimpl_lib.py lines 283-319):
read the identifier field, substitute the imputed value into the designated
feature column when the row index is flagged, run the debug block (the
module global _impute_debug is True), and produce the output fields in the
order of allKeys (preKeys, then the feature keys, then postKeys). -/
def writer_process_row (hdr : List String) (psmF na_feat ref_key : String)
    (allKeys : List String) (rows_with_na : List ℕ) (imputed : List (ℕ × ℚ))
    (i : ℕ) (row : Row) (st : DebugState) :
    Except PyErr (List RawVal × DebugState) := do
  let _psmId ← match dictGet hdr row psmF with
    | none => .error (.keyError psmF)
    | some v => .ok v
  if i ∈ rows_with_na then do
    let v ← match dictLookupLast imputed i with
      | none => .error (.keyError (toString i))
      | some v => .ok v
    let d := writer_row_dict hdr row (some v) na_feat
    let st' ← writer_debug_update d (some v) na_feat ref_key st
    let fields ← writer_fields d allKeys
    .ok (fields, st')
  else do
    let d := writer_row_dict hdr row none na_feat
    let st' ← writer_debug_update d none na_feat ref_key st
    let fields ← writer_fields d allKeys
    .ok (fields, st')

/-- Row loop of the write pass: process the data rows in order, numbering
them from i0, threading the debug state. -/
def writer_rows (hdr : List String) (psmF na_feat ref_key : String)
    (allKeys : List String) (rows_with_na : List ℕ) (imputed : List (ℕ × ℚ)) :
    List Row → ℕ → DebugState → Except PyErr (List (List RawVal) × DebugState)
  | [], _, st => .ok ([], st)
  | row :: rest, i, st => do
    let (fields, st') ← writer_process_row hdr psmF na_feat ref_key allKeys
      rows_with_na imputed i row st
    let (out, st'') ← writer_rows hdr psmF na_feat ref_key allKeys
      rows_with_na imputed rest (i + 1) st'
    .ok (fields :: out, st'')

/-- Guard of the histogram plotting helper: min and max of both series are
taken first, raising ValueError on an empty series.  The rendering itself is
an external side effect with no result consumed by the core. -/
def histogram_minCheck (targets decoys : List ℚ) : Except PyErr Unit :=
  if targets = [] ∨ decoys = [] then
    .error (.valueError "min() arg is an empty sequence")
  else .ok ()

/-- Observable outcome of impute_and_write_pin_file: the name and
compression of the written output, its header columns, its data rows (each
the field values written, tab-joined in the file), the designated imputed
feature, the regression model that was fit, the imputed-value dict and the
final debugging state. -/
structure PipelineOutput where
  output_name : String
  gzipped : Bool
  out_header : List String
  out_rows : List (List RawVal)
  na_feat : String
  regressor_used : SkRegressor
  imputed_vals_dict : List (ℕ × ℚ)
  debug : DebugState
deriving DecidableEq, Repr

/-- Function impute_and_write_pin_file of psimpl_lib.py (lines 195-333):
detection pass, matrix load, imputation (called with default regressor
arguments), then the write pass.  The write pass re-resolves the header with
its own hard-coded non-feature keys [psmId, ScanNr, Label, Peptide, protein]
(and, unlike the detection pass, does not drop empty header names), strips a
.gz extension from the requested output name unconditionally, pops the
designated feature from the tracker features set (a KeyError when no value
was missing), writes the permuted header (an IndexError on an empty feature
key list), processes every row, and finally runs the two histogram calls of
the debug block.  The gzipOutput parameter is accepted and never read, as in
the source. -/
def impute_and_write_pin_file (fp : FitPredict) (pin : PinFile)
    (outputpin : String) (gzipOutput : Bool := true)
    (regressor : String := "LinearRegression") :
    Except PyErr PipelineOutput := do
  let na_tracker ← find_missingVals pin
  let na_rows := na_tracker.get_missing_rows
  let na_cols := na_tracker.get_missing_cols
  let na_feature_names := na_tracker.get_features_with_missing_values
  let rows_with_na := na_rows
  let (X, _Y, _psmStringInfo, _row_keys) ←
    load_percolator_feature_matrix_with_nas pin false na_rows na_feature_names
  let ref_key := "spectral_contrast_angle"
  let ir := impute_given_original_feature_matrix fp X na_rows na_cols
  let h := pin.header
  let psmF ← if "SpecId" ∈ h then .ok "SpecId"
    else if "PSMId" ∈ h then .ok "PSMId"
    else .error (.valueError "No SpecId or PSMId field in PIN file, exitting")
  let p ← writer_proteinKey h
  let nonFeatureKeys := [psmF, "ScanNr", "Label", "Peptide", p]
  let preKeys := [psmF, "Label", "ScanNr"]
  let postKeys := ["Peptide", p]
  let keys := h.filter (fun k => !nonFeatureKeys.contains k)
  let outName := if splitext_ext outputpin == ".gz" then strDropEnd outputpin 3 else outputpin
  let na_feat ← match na_tracker.get_features_with_missing_values with
    | [] => .error (.keyError "pop from an empty set")
    | f :: _ => .ok f
  let gz := checkGzip_opensGzip outName
  if keys = [] then .error (.indexError "list index out of range")
  else do
    let (outRows, st) ← writer_rows h psmF na_feat ref_key
      (preKeys ++ keys ++ postKeys) rows_with_na ir.imputed_vals_dict pin.rows 0
      DebugState.init
    let _ ← histogram_minCheck st.non_imputed_vals st.imputed_vals
    let _ ← histogram_minCheck st.target_imputed_vals st.decoy_imputed_vals
    .ok { output_name := outName
          gzipped := gz
          out_header := preKeys ++ keys ++ postKeys
          out_rows := outRows
          na_feat := na_feat
          regressor_used := ir.regressor_used
          imputed_vals_dict := ir.imputed_vals_dict
          debug := st }

/-- Names bound at module scope in psimpl_lib.py by its def and class
statements (the star import in psimpl.py brings exactly these into the entry
script, beyond the imported library modules). -/
def psimpl_lib_defined_names : List String :=
  ["missing_value_tracker", "PSM", "histogram", "histogram_singleDist",
   "checkGzip_openfile", "impute_given_original_feature_matrix",
   "impute_and_write_pin_file", "find_missingVals",
   "load_percolator_feature_matrix_with_nas"]

/-- The class statements of psimpl_lib.py. -/
def psimpl_lib_class_names : List String :=
  ["missing_value_tracker", "PSM"]

/-- Names defined by psimpl.py itself. -/
def psimpl_py_defined_names : List String :=
  ["impute_and_write_pin", "main"]

/-- Function names that the body of main in psimpl.py calls after argument
parsing (the call of impute_and_write_pin_file present in the source is
commented out). -/
def main_called_workflows : List String :=
  ["impute_and_write_pin"]

/-- Python name resolution at a call site of the entry script: a name must
be among the module-scope bindings, else the call raises NameError. -/
def resolveName (n : String) : Except PyErr String :=
  if n ∈ psimpl_lib_defined_names ∨ n ∈ psimpl_py_defined_names then .ok n
  else .error (.nameError n)

/-- Command-line arguments of psimpl.py relevant to the workflow. -/
structure Args where
  pin : Option String
  verbose : ℤ
  turn_on_debug_mode : Bool
  output_pin : String
  gzip_output : Bool
  impute_regressor : String
deriving DecidableEq, Repr

/-- Function impute_and_write_pin of psimpl.py: its first statement
constructs psm_imputer(args.pin, ...), so the name psm_imputer is resolved
before anything else happens; the remaining statements (set_regressor,
impute, write_imputed_values) are only reachable through that object and are
never executed.  The second component lists the files read, in order; no
file is touched before the name resolution.  Only the NameError branch is
reachable: no module binds psm_imputer, so the success branch below (which
would have to run the unreachable method calls of an object of a class that
does not exist) never executes. -/
def impute_and_write_pin (args : Args) : Except PyErr Unit × List String :=
  match resolveName "psm_imputer" with
  | .error e => (.error e, [])
  | .ok _ => (.ok (), [args.pin.getD ""])

/-- Function main of psimpl.py after argument parsing: assert that a PIN
file was supplied, then run impute_and_write_pin. -/
def psimpl_main (args : Args) : Except PyErr Unit × List String :=
  match args.pin with
  | none => (.error (.assertionError
      "Please supply Percolator PIN file to impute missing values"), [])
  | some _ => impute_and_write_pin args

/-- The constant regression capability used to evaluate the pipeline on the
concrete example files: every prediction is 3.  The claims settled on these
files do not depend on the numeric predictions. -/
def fpConst : FitPredict := fun _linr _X _Y testX => testX.map (fun _ => 3)

/-- Example file exPin: three PSMs over the columns SpecId, Label, ScanNr,
featA, spectral_contrast_angle, Peptide, Proteins; featA of the second and
third row is the missing marker NA. -/
def exPin : PinFile :=
  { header := ["SpecId", "Label", "ScanNr", "featA", "spectral_contrast_angle",
               "Peptide", "Proteins"]
    rows :=
      [[.str "t1", .num 1, .num 1, .num 2, .num 5, .str "K.AAA.R", .str "prot1"],
       [.str "t2", .num 1, .num 2, .str "NA", .num 7, .str "K.CCC.R", .str "prot2"],
       [.str "d1", .num (-1), .num 3, .str "NA", .num 4, .str "K.DDD.R", .str "prot3"]] }

/-- Example file exPinNoSca: like exPin but without the
spectral_contrast_angle column; featB of the second row is missing. -/
def exPinNoSca : PinFile :=
  { header := ["SpecId", "Label", "ScanNr", "featA", "featB", "Peptide", "Proteins"]
    rows :=
      [[.str "t1", .num 1, .num 1, .num 2, .num 3, .str "K.AAA.R", .str "prot1"],
       [.str "t2", .num 1, .num 2, .num 5, .str "NA", .str "K.CCC.R", .str "prot2"]] }

/-- Scenario 1 file of the spec: five rows over SpecId, Label, ScanNr,
featA, featB, peptide, proteinIds, with featB of the third row (row index 2)
the missing marker NA. -/
def scenario1Pin : PinFile :=
  { header := ["SpecId", "Label", "ScanNr", "featA", "featB", "peptide", "proteinIds"]
    rows :=
      [[.str "s1", .num 1, .num 1, .num 10, .num 20, .str "K.AAA.R", .str "p1"],
       [.str "s2", .num (-1), .num 2, .num 11, .num 21, .str "K.CCC.R", .str "p2"],
       [.str "s3", .num 1, .num 3, .num 12, .str "NA", .str "K.DDD.R", .str "p3"],
       [.str "s4", .num (-1), .num 4, .num 13, .num 23, .str "K.EEE.R", .str "p4"],
       [.str "s5", .num 1, .num 5, .num 14, .num 24, .str "K.FFF.R", .str "p5"]] }

/-- Cross-product counterexample file: two rows, featA missing in row 0 and
featB missing in row 1, while featB of row 0 holds the honest value 7. -/
def crossPin : PinFile :=
  { header := ["SpecId", "Label", "featA", "featB", "Peptide", "Proteins"]
    rows :=
      [[.str "t1", .num 1, .str "NA", .num 7, .str "K.AAA.R", .str "p1"],
       [.str "t2", .num (-1), .num 1, .str "NA", .str "K.CCC.R", .str "p2"]] }

/-- Header-only file whose header lacks both SpecId and PSMId (but has the
peptide and protein columns), with no data rows. -/
def noIdEmptyPin : PinFile :=
  { header := ["Id", "Label", "featA", "Peptide", "Proteins"]
    rows := [] }

/-- The same bad header with one data row. -/
def noIdOneRowPin : PinFile :=
  { header := ["Id", "Label", "featA", "Peptide", "Proteins"]
    rows := [[.str "t1", .num 1, .num 2, .str "K.AAA.R", .str "p1"]] }

set_option maxRecDepth 4000

/-- C1: the top-level workflow impute_and_write_pin resolves the undefined
name psm_imputer and therefore raises NameError for every argument object,
before any PIN file is read (its file-read trace is empty); psimpl_lib
defines only the classes missing_value_tracker and PSM; and the
command-line entry point calls impute_and_write_pin, never the working
pipeline impute_and_write_pin_file. -/
theorem C1_psm_imputer_undefined :
    (∀ args : Args, impute_and_write_pin args = (.error (.nameError "psm_imputer"), [])) ∧
    "psm_imputer" ∉ psimpl_lib_defined_names ∧
    "psm_imputer" ∉ psimpl_py_defined_names ∧
    psimpl_lib_class_names = ["missing_value_tracker", "PSM"] ∧
    "impute_and_write_pin_file" ∉ main_called_workflows ∧
    "impute_and_write_pin" ∈ main_called_workflows := by
  refine ⟨fun args => rfl, by decide, by decide, rfl, by decide, by decide⟩

/-- C2 counterexample: requesting gzip output (gzipOutput = true) with
destination out.pin produces an UNCOMPRESSED stream (the claim says a
compressed one), and with destination out.gz the .gz extension is stripped
even though compression is requested (the claim says stripping happens only
when compression is not requested). -/
theorem C2_cex_gzip_request_not_compressed :
    (impute_and_write_pin_file fpConst exPin "out.pin" true "LinearRegression").map
      (fun r => r.gzipped) = .ok false ∧
    ¬((impute_and_write_pin_file fpConst exPin "out.pin" true "LinearRegression").map
      (fun r => r.gzipped) = .ok true) ∧
    (impute_and_write_pin_file fpConst exPin "out.gz" true "LinearRegression").map
      (fun r => r.output_name) = .ok "out" := by decide

/-- C2 as amended: the gzipOutput parameter of impute_and_write_pin_file is
never read, so the result is identical for both flag values; a .gz
extension on the requested output name is stripped unconditionally (also
when compression is requested), and the output is gzip-compressed exactly
when the name left after that stripping still ends in .gz — so with
destination out.pin and compression requested, the destination name is
kept but the output stream is not gzip-compressed. -/
theorem C2_gzip_flag_ignored :
    (∀ fp pin out reg (gz gz' : Bool),
      impute_and_write_pin_file fp pin out gz reg =
      impute_and_write_pin_file fp pin out gz' reg) ∧
    (impute_and_write_pin_file fpConst exPin "out.pin" true "LinearRegression").map
      (fun r => (r.output_name, r.gzipped)) = .ok ("out.pin", false) ∧
    (impute_and_write_pin_file fpConst exPin "out.gz" true "LinearRegression").map
      (fun r => (r.output_name, r.gzipped)) = .ok ("out", false) ∧
    (impute_and_write_pin_file fpConst exPin "out.gz.gz" false "LinearRegression").map
      (fun r => (r.output_name, r.gzipped)) = .ok ("out.gz", true) := by
  refine ⟨fun fp pin out reg gz gz' => rfl, by decide, by decide, by decide⟩

/-- C3: impute_given_original_feature_matrix does select the model by its
regressor string (Ridge, Lasso, ElasticNet, default ordinary least
squares), but impute_and_write_pin_file never forwards its own regressor
argument to it (the call at psimpl_lib.py line 225 passes only the matrix
and the index sets), so the result is identical for every regressor
argument, and requesting Ridge still fits LinearRegression(normalize=True),
contradicting the claim. -/
theorem C3_regressor_argument_ignored :
    (∀ a l, choose_regressor "Ridge" a l = .Ridge a) ∧
    (∀ a l, choose_regressor "Lasso" a l = .Lasso a) ∧
    (∀ a l, choose_regressor "ElasticNet" a l = .ElasticNet a l) ∧
    (∀ a l, choose_regressor "LinearRegression" a l = .LinearRegression true) ∧
    (∀ fp pin out gz (reg reg' : String),
      impute_and_write_pin_file fp pin out gz reg =
      impute_and_write_pin_file fp pin out gz reg') ∧
    (impute_and_write_pin_file fpConst exPin "out.pin" true "Ridge").map
      (fun r => r.regressor_used) = .ok (.LinearRegression true) := by
  exact ⟨fun a l => rfl, fun a l => rfl, fun a l => rfl, fun a l => rfl,
    fun fp pin out gz reg reg' => rfl, by decide⟩

/-- A tracker that recorded two missing cells in the same row (row 3,
columns 0 and 1). -/
def dupRowTracker : missing_value_tracker :=
  ((missing_value_tracker.init ["NA", "na"]).found_missing_value "featA" 3 0
    (.str "psm7")).found_missing_value "featB" 3 1 (.str "psm7")

/-- C7 counterexample: after two missing cells in the same row, the
get_missing_rows accessor returns the row index twice, so the claimed
absence of duplicate row entries fails on the code. -/
theorem C7_cex_duplicate_rows :
    dupRowTracker.get_missing_rows = [3, 3] ∧
    ¬ dupRowTracker.get_missing_rows.Nodup ∧
    dupRowTracker.get_missing_cols = [0, 1] := by decide

/-- C7 as amended: get_missing_cols returns the distinct missing column
indices (duplicate-free, covering exactly the columns of the accumulated
triples), while get_missing_rows returns one entry per accumulated triple
(its length is the triple count, so a row with several missing cells is
repeated), covering exactly the rows of the triples. -/
theorem C7_accessors_amended (t : missing_value_tracker) :
    t.get_missing_cols.Nodup ∧
    (∀ j, j ∈ t.get_missing_cols ↔
      ∃ p ∈ t.feature_mat_indices_psmIds, p.2.1 = j) ∧
    t.get_missing_rows.length = t.feature_mat_indices_psmIds.length ∧
    (∀ i, i ∈ t.get_missing_rows ↔
      ∃ p ∈ t.feature_mat_indices_psmIds, p.1 = i) := by
  refine ⟨List.nodup_dedup _, fun j => ?_, List.length_map _ _, fun i => ?_⟩
  · simp [missing_value_tracker.get_missing_cols, List.mem_dedup, List.mem_map]
  · simp [missing_value_tracker.get_missing_rows, List.mem_map]

/-- Tracker produced by the detection pass on exPinNoSca. -/
def exPinNoScaTracker : missing_value_tracker :=
  { missingValues := ["NA", "na"]
    features := ["featB"]
    feature_mat_indices_psmIds := [(1, 2, .str "t2")] }

/-- C10 counterexample: exPinNoSca is accepted by the detection and loading
passes (and imputation cannot fail), yet the write pass aborts with a
KeyError, because the debug collection reads the hard-coded reference
column spectral_contrast_angle, which the file does not have.  The debug
path is therefore not incapable of raising. -/
theorem C10_cex_missing_reference_column :
    find_missingVals exPinNoSca = .ok exPinNoScaTracker ∧
    (load_percolator_feature_matrix_with_nas exPinNoSca false
      exPinNoScaTracker.get_missing_rows exPinNoScaTracker.features).isOk = true ∧
    "spectral_contrast_angle" ∉ exPinNoSca.header ∧
    impute_and_write_pin_file fpConst exPinNoSca "o.pin" true "LinearRegression" =
      .error (.keyError "spectral_contrast_angle") := by decide

/-- C4 counterexample: a file whose header has neither SpecId nor PSMId
(but does have the other required columns) and no data rows is accepted by
find_missingVals without any error, so parsing does not fail with a schema
error before any data row is read. -/
theorem C4_cex_header_not_checked :
    "SpecId" ∉ noIdEmptyPin.header ∧
    "PSMId" ∉ noIdEmptyPin.header ∧
    find_missingVals noIdEmptyPin = .ok (missing_value_tracker.init ["NA", "na"]) := by
  decide

/-- Modelled from the spec: the claimed uniform grouping-column rule, the
first of proteinIds, Proteins, Protein present in the header. -/
def spec_grouping_rule (header : List String) : Option String :=
  ["proteinIds", "Proteins", "Protein"].find? (fun k => header.contains k)

/-- C5 counterexample: for a header whose grouping column is named Protein,
the claimed rule resolves it, but the detection pass rejects the file; and
for a header using proteinIds, the write pass rejects it.  The three passes
do not accept the same synonym set. -/
theorem C5_cex_passes_disagree :
    spec_grouping_rule ["SpecId", "Label", "featA", "Peptide", "Protein"] =
      some "Protein" ∧
    fm_proteinKey ["SpecId", "Label", "featA", "Peptide", "Protein"] =
      .error (.assertionError "PIN file does not contain protein column, exitting") ∧
    spec_grouping_rule ["SpecId", "Label", "featA", "Peptide", "proteinIds"] =
      some "proteinIds" ∧
    writer_proteinKey ["SpecId", "Label", "featA", "Peptide", "proteinIds"] =
      .error (.exitCode (-1)) := by decide

/-- Tracker produced by the detection pass on crossPin. -/
def crossPinTracker : missing_value_tracker :=
  { missingValues := ["NA", "na"]
    features := ["featA", "featB"]
    feature_mat_indices_psmIds := [(0, 0, .str "t1"), (1, 1, .str "t2")] }

/-- C6 counterexample: on crossPin the tracker flags exactly the cells
(0, 0) and (1, 1), yet the loaded matrix also holds 0.0 at the unflagged
cell (0, 1), whose raw field parses to 7: the zeroing is the Cartesian
product of missing rows with missing features, not the flagged cell set. -/
theorem C6_cex_cartesian_product_zeroing :
    find_missingVals crossPin = .ok crossPinTracker ∧
    (∀ p ∈ crossPinTracker.feature_mat_indices_psmIds, ¬(p.1 = 0 ∧ p.2.1 = 1)) ∧
    dictGet crossPin.header (crossPin.rows.getD 0 []) "featB" = some (.num 7) ∧
    (load_percolator_feature_matrix_with_nas crossPin false
        crossPinTracker.get_missing_rows crossPinTracker.features).map
      (fun r => r.1) = .ok [[0, 0], [0, 0]] := by decide

/-- Reduction of an Except bind on a success value. -/
@[simp] theorem exceptBind_ok {ε α β : Type} (a : α) (f : α → Except ε β) :
    (Except.ok a >>= f) = f a := rfl

/-- Reduction of an Except bind on an error value. -/
@[simp] theorem exceptBind_error {ε α β : Type} (e : ε) (f : α → Except ε β) :
    ((Except.error e : Except ε α) >>= f) = Except.error e := rfl

/-- A key absent from the header is absent from every row dict. -/
theorem dictGet_eq_none (header : List String) (row : Row) (k : String)
    (h : k ∉ header) : dictGet header row k = none := by
  rw [dictGet, List.lookup_eq_none_iff]
  rintro ⟨a, b⟩ hp
  have hmem : (a, b) ∈ header.zip row := List.mem_reverse.mp hp
  have ha := (List.of_mem_zip hmem).1
  simp only [bne_iff_ne, ne_eq]
  exact fun e => h (e ▸ ha)

/-- C4 as amended: when the header lacks both SpecId and PSMId (but has the
peptide and protein columns the detection pass checks), find_missingVals
does not fail at header time; it assumes the identifier field PSMId and
fails with a KeyError while reading the FIRST data row, so a file with at
least one data row dies with KeyError (not a schema error raised before any
row is read), and a file with no data rows is accepted outright. -/
theorem C4_keyerror_at_first_row_amended (file : PinFile)
    (h1 : "SpecId" ∉ file.header) (h2 : "PSMId" ∉ file.header)
    (h3 : "peptide" ∈ file.header ∨ "Peptide" ∈ file.header)
    (h4 : "proteinIds" ∈ file.header ∨ "Proteins" ∈ file.header)
    (h5 : file.rows ≠ []) :
    find_missingVals file = .error (.keyError "PSMId") := by
  obtain ⟨r, rs, hrw⟩ := List.exists_cons_of_ne_nil h5
  have hpsm : fm_psmIdField file.header = "PSMId" := by
    simp [fm_psmIdField, h1]
  have hpep : ∃ pk, fm_peptideKey file.header = .ok pk ∧ pk ∈ file.header := by
    rcases h3 with h | h
    · exact ⟨"peptide", by simp [fm_peptideKey, h], h⟩
    · by_cases hlc : "peptide" ∈ file.header
      · exact ⟨"peptide", by simp [fm_peptideKey, hlc], hlc⟩
      · exact ⟨"Peptide", by simp [fm_peptideKey, hlc, h], h⟩
  have hprot : ∃ gk, fm_proteinKey file.header = .ok gk ∧ gk ∈ file.header := by
    rcases h4 with h | h
    · exact ⟨"proteinIds", by simp [fm_proteinKey, h], h⟩
    · by_cases hlc : "proteinIds" ∈ file.header
      · exact ⟨"proteinIds", by simp [fm_proteinKey, hlc], hlc⟩
      · exact ⟨"Proteins", by simp [fm_proteinKey, hlc, h], h⟩
  obtain ⟨pk, hpk, hpkmem⟩ := hpep
  obtain ⟨gk, hgk, hgkmem⟩ := hprot
  have hfilter : ["PSMId", "Label", pk, gk].filter
      (fun k => file.header.contains k) ≠ [] := by
    intro hemp
    have hm : pk ∈ ["PSMId", "Label", pk, gk].filter (fun k => file.header.contains k) := by
      refine List.mem_filter.mpr ⟨by simp, ?_⟩
      simpa [List.contains] using hpkmem
    rw [hemp] at hm
    exact List.not_mem_nil _ hm
  have hget : dictGet file.header r "PSMId" = none := dictGet_eq_none _ _ _ h2
  have hrowfail : fm_processRow file.header
      (featureKeys file.header ["PSMId", "Label", pk, gk]) 0 r
      (missing_value_tracker.init ["NA", "na"]) = .error (.keyError "PSMId") := by
    simp [fm_processRow, hpsm, hget]
  simp only [find_missingVals, hpk, hgk, hpsm, hrw, exceptBind_ok]
  rw [if_neg hfilter]
  simp [fm_rows, hrowfail]

/-- Witness for C4: the concrete bad-header file with one data row fails
with the row-level KeyError. -/
theorem C4_keyerror_witness :
    find_missingVals noIdOneRowPin = .error (.keyError "PSMId") :=
  C4_keyerror_at_first_row_amended noIdOneRowPin (by decide) (by decide)
    (by decide) (by decide) (by decide)

/-- C5 as amended: the three passes resolve the grouping column by three
different rules (detection: proteinIds then Proteins; loading: Protein,
Proteins, proteinIds; writing: Protein then Proteins), so for a header
containing exactly one of the three synonym names, all three passes accept
it exactly when that name is Proteins. -/
theorem C5_resolution_amended (header : List String) (g : String)
    (hg : g = "proteinIds" ∨ g = "Proteins" ∨ g = "Protein")
    (hmem : g ∈ header)
    (h1 : "proteinIds" ≠ g → "proteinIds" ∉ header)
    (h2 : "Proteins" ≠ g → "Proteins" ∉ header)
    (h3 : "Protein" ≠ g → "Protein" ∉ header) :
    ((fm_proteinKey header).isOk = true ∧ (load_proteinKey header).isOk = true ∧
      (writer_proteinKey header).isOk = true) ↔ g = "Proteins" := by
  rcases hg with rfl | rfl | rfl
  · refine iff_of_false ?_ (by decide)
    rintro ⟨-, -, hw⟩
    have hwe : writer_proteinKey header = .error (.exitCode (-1)) := by
      simp [writer_proteinKey, h2 (by decide), h3 (by decide)]
    rw [hwe] at hw
    exact absurd hw (by decide)
  · refine iff_of_true ⟨?_, ?_, ?_⟩ rfl
    · simp [fm_proteinKey, hmem, h1 (by decide), Except.isOk, Except.toBool]
    · simp [load_proteinKey, hmem, h3 (by decide), Except.isOk, Except.toBool]
    · simp [writer_proteinKey, hmem, h3 (by decide), Except.isOk, Except.toBool]
  · refine iff_of_false ?_ (by decide)
    rintro ⟨hf, -, -⟩
    have hfe : fm_proteinKey header = .error
        (.assertionError "PIN file does not contain protein column, exitting") := by
      simp [fm_proteinKey, h1 (by decide), h2 (by decide)]
    rw [hfe] at hf
    exact absurd hf (by decide)

/-- Witness for C5: a header naming its grouping column Proteins passes all
three resolutions. -/
theorem C5_resolution_witness :
    ((fm_proteinKey ["SpecId", "Label", "featA", "Peptide", "Proteins"]).isOk = true ∧
      (load_proteinKey ["SpecId", "Label", "featA", "Peptide", "Proteins"]).isOk = true ∧
      (writer_proteinKey ["SpecId", "Label", "featA", "Peptide", "Proteins"]).isOk = true) ↔
      "Proteins" = "Proteins" :=
  C5_resolution_amended ["SpecId", "Label", "featA", "Peptide", "Proteins"] "Proteins"
    (by decide) (by decide) (by decide) (by decide) (by decide)

/-- Value the matrix loader stores for one cell: the 0.0 placeholder when
the row index is a missing row AND the column name a missing feature, else
the float parse of the raw field (none on parse or lookup failure, which
aborts the loader). -/
def load_cell (hdr : List String) (row : Row) (i : ℕ) (na_rows : List ℕ)
    (na_features : List String) (k : String) : Option ℚ :=
  if i ∈ na_rows ∧ k ∈ na_features then some 0
  else (dictGet hdr row k).bind pyFloat?

/-- On success, the loader feature loop appends exactly the per-cell values
of load_cell, all of which must exist. -/
theorem load_featLoop_ok_eq (hdr : List String) (row : Row) (i : ℕ)
    (nr : List ℕ) (nf : List String) :
    ∀ ks el out, load_featLoop hdr row i nr nf ks el = .ok out →
    (∀ k ∈ ks, (load_cell hdr row i nr nf k).isSome = true) ∧
    out = el ++ ks.map (fun k => (load_cell hdr row i nr nf k).getD 0) := by
  intro ks
  induction ks with
  | nil =>
    intro el out h
    simp only [load_featLoop] at h
    cases h
    simp
  | cons k rest ih =>
    intro el out h
    rw [load_featLoop] at h
    by_cases hc : i ∈ nr ∧ k ∈ nf
    · rw [if_pos hc] at h
      obtain ⟨hall, hout⟩ := ih _ _ h
      refine ⟨?_, ?_⟩
      · intro k' hk'
        rcases List.mem_cons.mp hk' with rfl | hk'
        · simp [load_cell, hc]
        · exact hall k' hk'
      · rw [hout]
        simp [load_cell, hc]
    · rw [if_neg hc] at h
      cases hd : dictGet hdr row k with
      | none => rw [hd] at h; exact absurd h (by simp)
      | some v =>
        rw [hd] at h
        dsimp only [exceptBind_ok, exceptBind_error] at h
        cases hf : pyFloat? v with
        | none => rw [hf] at h; dsimp only [exceptBind_ok, exceptBind_error] at h; exact absurd h (by simp)
        | some q =>
          rw [hf] at h
          dsimp only [exceptBind_ok, exceptBind_error] at h
          obtain ⟨hall, hout⟩ := ih _ _ h
          refine ⟨?_, ?_⟩
          · intro k' hk'
            rcases List.mem_cons.mp hk' with rfl | hk'
            · simp [load_cell, hc, hd, hf]
            · exact hall k' hk'
          · rw [hout]
            simp [load_cell, hc, hd, hf]

/-- The matrix row the loader produces for data row number i. -/
def load_expected_row (hdr : List String) (nr : List ℕ) (nf : List String)
    (keys : List String) (ib : Bool) (i : ℕ) (row : Row) : List ℚ :=
  let el := keys.map (fun k => (load_cell hdr row i nr nf k).getD 0)
  if ib then el ++ [1] else el

/-- On success, the loader row loop appends exactly the expected matrix rows
(in input order, numbered from the starting index), and every cell value of
every processed row exists. -/
theorem load_rows_ok_eq (hdr : List String) (keys : List String) (ib : Bool)
    (nr : List ℕ) (nf : List String) (psmF pepK protK : String) :
    ∀ (rows : List Row) (i0 : ℕ) (accF : List (List ℚ)) (accY : List ℤ)
      (accP : List PSM) (fs : List (List ℚ)) (Y : List ℤ) (ps : List PSM),
    load_rows hdr keys ib nr nf psmF pepK protK rows i0 accF accY accP = .ok (fs, Y, ps) →
    fs = accF ++ (rows.enumFrom i0).map
      (fun p => load_expected_row hdr nr nf keys ib p.1 p.2) ∧
    ∀ m (hm : m < rows.length) k, k ∈ keys →
      (load_cell hdr (rows.get ⟨m, hm⟩) (i0 + m) nr nf k).isSome = true := by
  intro rows
  induction rows with
  | nil =>
    intro i0 accF accY accP fs Y ps h
    simp only [load_rows] at h
    cases h
    simp [List.enumFrom]
  | cons row rest ih =>
    intro i0 accF accY accP fs Y ps h
    rw [load_rows] at h
    cases hlab : dictGet hdr row "Label" with
    | none => rw [hlab] at h; exact absurd h (by simp)
    | some lv =>
      rw [hlab] at h
      dsimp only [exceptBind_ok, exceptBind_error] at h
      cases hy : pyInt? lv with
      | none => rw [hy] at h; dsimp only [exceptBind_ok, exceptBind_error] at h; exact absurd h (by simp)
      | some y =>
        rw [hy] at h
        dsimp only [exceptBind_ok, exceptBind_error] at h
        by_cases hyv : y ≠ 1 ∧ y ≠ -1
        · rw [if_pos hyv] at h; exact absurd h (by simp)
        · rw [if_neg hyv] at h
          cases hfl : load_featLoop hdr row i0 nr nf keys [] with
          | error e => rw [hfl] at h; exact absurd h (by simp)
          | ok el =>
            rw [hfl] at h
            dsimp only [exceptBind_ok, exceptBind_error] at h
            cases hid : dictGet hdr row psmF with
            | none => rw [hid] at h; exact absurd h (by simp)
            | some idv =>
              rw [hid] at h
              dsimp only [exceptBind_ok, exceptBind_error] at h
              cases hpv : dictGet hdr row pepK with
              | none => rw [hpv] at h; exact absurd h (by simp)
              | some pepv =>
                rw [hpv] at h
                dsimp only [exceptBind_ok, exceptBind_error] at h
                cases hgv : dictGet hdr row protK with
                | none => rw [hgv] at h; exact absurd h (by simp)
                | some protv =>
                  rw [hgv] at h
                  dsimp only [exceptBind_ok, exceptBind_error] at h
                  obtain ⟨hfs, hcells⟩ := ih _ _ _ _ _ _ _ h
                  obtain ⟨hall, hel⟩ := load_featLoop_ok_eq hdr row i0 nr nf keys [] el hfl
                  constructor
                  · rw [hfs, hel]
                    simp only [List.enumFrom, List.map_cons, List.nil_append,
                      List.append_assoc, List.singleton_append]
                    rfl
                  · intro m hm k hk
                    cases m with
                    | zero => simpa using hall k hk
                    | succ m' =>
                      have hm' : m' < rest.length := by
                        have h2 := hm
                        simp only [List.length_cons] at h2
                        omega
                      have hc2 := hcells m' hm' k hk
                      have harith : i0 + 1 + m' = i0 + (m' + 1) := by omega
                      rw [harith] at hc2
                      simpa using hc2

/-- C6 as amended: on success the loaded matrix has one row per data row,
and the cell at (i, j) is 0.0 exactly when row i is one of the missing rows
AND the name of feature column j is one of the missing features (the
Cartesian product, which for a single missing cell as in Scenario 1 is
exactly the flagged cell); every other cell is the float parsed from that
raw field. -/
theorem C6_matrix_zeroing_amended (file : PinFile) (ib : Bool) (na_rows : List ℕ)
    (na_features : List String) (M : List (List ℚ)) (Y : List ℤ) (ps : List PSM)
    (keys : List String)
    (h : load_percolator_feature_matrix_with_nas file ib na_rows na_features =
      .ok (M, Y, ps, keys)) :
    M.length = file.rows.length ∧
    ∀ i (hi : i < file.rows.length) (j : ℕ) (hj : j < keys.length),
      (i ∈ na_rows ∧ keys.get ⟨j, hj⟩ ∈ na_features →
        (M.getD i []).getD j 0 = 0) ∧
      (¬(i ∈ na_rows ∧ keys.get ⟨j, hj⟩ ∈ na_features) →
        ∃ q, dictGet file.header (file.rows.getD i []) (keys.get ⟨j, hj⟩) =
          some (.num q) ∧ (M.getD i []).getD j 0 = q) := by
  rw [load_percolator_feature_matrix_with_nas] at h
  cases hpk : fm_peptideKey file.header with
  | error e => rw [hpk] at h; exact absurd h (by simp)
  | ok pepK =>
    rw [hpk] at h
    dsimp only [exceptBind_ok, exceptBind_error] at h
    cases hgk : load_proteinKey file.header with
    | error e => rw [hgk] at h; exact absurd h (by simp)
    | ok protK =>
      rw [hgk] at h
      dsimp only [exceptBind_ok, exceptBind_error] at h
      by_cases hfil : [fm_psmIdField file.header, "Label", pepK, protK].filter
          (fun k => file.header.contains k) = []
      · rw [if_pos hfil] at h; exact absurd h (by simp)
      · rw [if_neg hfil] at h
        cases hlr : load_rows file.header
            (featureKeys file.header [fm_psmIdField file.header, "Label", pepK, protK])
            ib na_rows na_features (fm_psmIdField file.header) pepK protK
            file.rows 0 [] [] [] with
        | error e => rw [hlr] at h; exact absurd h (by simp)
        | ok trip =>
          obtain ⟨fs0, Y0, ps0⟩ := trip
          rw [hlr] at h
          dsimp only [exceptBind_ok, exceptBind_error] at h
          simp only [Except.ok.injEq, Prod.mk.injEq] at h
          obtain ⟨hM, hY, hps, hkeys⟩ := h
          subst hM hY hps
          rw [hkeys] at hlr
          obtain ⟨hfs, hcells⟩ := load_rows_ok_eq file.header keys ib na_rows
            na_features (fm_psmIdField file.header) pepK protK
            file.rows 0 [] [] [] fs0 Y0 ps0 hlr
          rw [hfs]
          simp only [List.nil_append]
          have hlen : (List.map
              (fun p => load_expected_row file.header na_rows na_features keys ib p.1 p.2)
              (List.enumFrom 0 file.rows)).length = file.rows.length := by
            simp
          refine ⟨hlen, ?_⟩
          intro i hi j hj
          have hiM : i < (List.map
              (fun p => load_expected_row file.header na_rows na_features keys ib p.1 p.2)
              (List.enumFrom 0 file.rows)).length := by
            rw [hlen]; exact hi
          have hrow : (List.map
              (fun p => load_expected_row file.header na_rows na_features keys ib p.1 p.2)
              (List.enumFrom 0 file.rows)).getD i [] =
              load_expected_row file.header na_rows na_features keys ib i
                (file.rows.get ⟨i, hi⟩) := by
            rw [List.getD_eq_getElem?_getD, List.getElem?_eq_getElem hiM]
            simp only [Option.getD_some, List.getElem_map, List.getElem_enumFrom]
            simp [List.get_eq_getElem]
          rw [hrow]
          have hcell := hcells i hi (keys.get ⟨j, hj⟩) (List.get_mem _ _ _)
          rw [Nat.zero_add] at hcell
          have hval : (load_expected_row file.header na_rows na_features keys ib i
              (file.rows.get ⟨i, hi⟩)).getD j 0 =
              (load_cell file.header (file.rows.get ⟨i, hi⟩) i na_rows na_features
                (keys.get ⟨j, hj⟩)).getD 0 := by
            simp only [load_expected_row]
            have hjlen : j < (keys.map (fun k =>
                (load_cell file.header (file.rows.get ⟨i, hi⟩) i na_rows na_features
                  k).getD 0)).length := by
              simpa using hj
            have hmapval : (keys.map (fun k =>
                (load_cell file.header (file.rows.get ⟨i, hi⟩) i na_rows na_features
                  k).getD 0)).getD j 0 =
                (load_cell file.header (file.rows.get ⟨i, hi⟩) i na_rows na_features
                  (keys.get ⟨j, hj⟩)).getD 0 := by
              rw [List.getD_eq_getElem?_getD, List.getElem?_eq_getElem hjlen]
              simp [List.getElem_map, List.get_eq_getElem]
            cases ib with
            | true =>
              rw [if_pos rfl, List.getD_append _ _ _ _ hjlen, hmapval]
            | false => simpa using hmapval
          rw [hval]
          have hgetD : file.rows.getD i [] = file.rows.get ⟨i, hi⟩ := by
            rw [List.getD_eq_getElem?_getD, List.getElem?_eq_getElem hi]
            simp [List.get_eq_getElem]
          constructor
          · intro hcond
            have hc2 := hcond.2
            simp only [List.get_eq_getElem] at hc2
            simp [load_cell, hcond.1, hc2]
          · intro hcond
            obtain ⟨q, hq⟩ := Option.isSome_iff_exists.mp hcell
            rw [load_cell, if_neg hcond] at hq
            obtain ⟨v, hv, hvq⟩ := Option.bind_eq_some.mp hq
            cases v with
            | num q' =>
              have hq' : q' = q := by simpa [pyFloat?] using hvq
              subst hq'
              refine ⟨q', ?_, ?_⟩
              · rw [hgetD]; exact hv
              · rw [load_cell, if_neg hcond, hv]
                simp [pyFloat?]
            | str s => simp [pyFloat?] at hvq

/-- Witness for C6: the Scenario 1 file.  The loader (with the missing rows
and features found by detection: row 2, feature featB) produces the
expected matrix, and the theorem instantiated at cell (2, 2), the flagged
cell, gives the 0.0 placeholder there. -/
theorem C6_scenario1_witness :
    load_percolator_feature_matrix_with_nas scenario1Pin false [2] ["featB"] =
      .ok ([[1, 10, 20], [2, 11, 21], [3, 12, 0], [4, 13, 23], [5, 14, 24]],
        [1, -1, 1, -1, 1],
        [PSM.make "s1" "K.AAA.R" "p1", PSM.make "s2" "K.CCC.R" "p2",
         PSM.make "s3" "K.DDD.R" "p3", PSM.make "s4" "K.EEE.R" "p4",
         PSM.make "s5" "K.FFF.R" "p5"],
        ["ScanNr", "featA", "featB"]) ∧
    (([[1, 10, 20], [2, 11, 21], [3, 12, 0], [4, 13, 23], [5, 14, 24]] :
      List (List ℚ)).getD 2 []).getD 2 0 = 0 := by
  refine ⟨by decide, ?_⟩
  have h := C6_matrix_zeroing_amended scenario1Pin false [2] ["featB"]
    [[1, 10, 20], [2, 11, 21], [3, 12, 0], [4, 13, 23], [5, 14, 24]]
    [1, -1, 1, -1, 1]
    [PSM.make "s1" "K.AAA.R" "p1", PSM.make "s2" "K.CCC.R" "p2",
     PSM.make "s3" "K.DDD.R" "p3", PSM.make "s4" "K.EEE.R" "p4",
     PSM.make "s5" "K.FFF.R" "p5"]
    ["ScanNr", "featA", "featB"] (by decide)
  exact (h.2 2 (by decide) 2 (by decide)).1 (by decide)

/-- Value the detection pass stores for one cell (find_missingVals): the
float parse when it succeeds, the 0.0 placeholder when the raw value is a
recognized marker, nothing otherwise (lookup failure or a malformed
value, both of which abort). -/
def detected_value (hdr : List String) (row : Row) (mvs : List String)
    (k : String) : Option ℚ :=
  match dictGet hdr row k with
  | none => none
  | some v =>
    match pyFloat? v with
    | some q => some q
    | none => if isMissingMarker v mvs then some 0 else none

/-- Whether the detection pass records a missing-cell triple for this cell:
the raw value does not parse as a float and is a recognized marker. -/
def is_marker_cell (hdr : List String) (row : Row) (mvs : List String)
    (k : String) : Bool :=
  match dictGet hdr row k with
  | none => false
  | some v => (pyFloat? v).isNone && isMissingMarker v mvs

/-- Recording a missing value does not change the recognized marker set. -/
theorem found_missing_value_missingValues (t : missing_value_tracker)
    (f : String) (r c : ℕ) (p : RawVal) :
    (t.found_missing_value f r c p).missingValues = t.missingValues := rfl

/-- On success, the detection feature loop appends exactly the per-cell
detected values to el (all of which must exist) and appends to the tracker
exactly one (row, col, psmId) triple per marker cell, with col the position
carried by the enumerated key list. -/
theorem fm_featLoop_ok_eq (hdr : List String) (row : Row) (i : ℕ) (psmId : RawVal) :
    ∀ (jks : List (ℕ × String)) (el : List ℚ) (t : missing_value_tracker)
      (out : List ℚ × missing_value_tracker),
    fm_featLoop hdr row i psmId jks el t = .ok out →
    out.2.missingValues = t.missingValues ∧
    (∀ jk ∈ jks, (detected_value hdr row t.missingValues jk.2).isSome = true) ∧
    out.1 = el ++ jks.map (fun jk => (detected_value hdr row t.missingValues jk.2).getD 0) ∧
    out.2.feature_mat_indices_psmIds = t.feature_mat_indices_psmIds ++
      jks.filterMap (fun jk => if is_marker_cell hdr row t.missingValues jk.2
        then some (i, jk.1, psmId) else none) := by
  intro jks
  induction jks with
  | nil =>
    intro el t out h
    simp only [fm_featLoop] at h
    cases h
    simp
  | cons jk rest ih =>
    obtain ⟨j, k⟩ := jk
    intro el t out h
    rw [fm_featLoop] at h
    cases hd : dictGet hdr row k with
    | none => rw [hd] at h; exact absurd h (by simp)
    | some v =>
      rw [hd] at h
      dsimp only [exceptBind_ok, exceptBind_error] at h
      cases hf : pyFloat? v with
      | some q =>
        rw [hf] at h
        dsimp only [exceptBind_ok, exceptBind_error] at h
        obtain ⟨hmv, hall, hel, htr⟩ := ih _ _ _ h
        refine ⟨hmv, ?_, ?_, ?_⟩
        · intro jk' hjk'
          rcases List.mem_cons.mp hjk' with rfl | hjk'
          · simp [detected_value, hd, hf]
          · exact hall jk' hjk'
        · rw [hel]; simp [detected_value, hd, hf]
        · rw [htr]
          have hmk : is_marker_cell hdr row t.missingValues k = false := by
            simp [is_marker_cell, hd, hf]
          simp [hmk]
      | none =>
        rw [hf] at h
        dsimp only [exceptBind_ok, exceptBind_error] at h
        by_cases hmk : isMissingMarker v t.missingValues
        · rw [if_pos hmk] at h
          obtain ⟨hmv, hall, hel, htr⟩ := ih _ _ _ h
          rw [found_missing_value_missingValues] at hmv hall hel htr
          refine ⟨hmv, ?_, ?_, ?_⟩
          · intro jk' hjk'
            rcases List.mem_cons.mp hjk' with rfl | hjk'
            · simp [detected_value, hd, hf, hmk]
            · exact hall jk' hjk'
          · rw [hel]; simp [detected_value, hd, hf, hmk]
          · rw [htr]
            have hmkc : is_marker_cell hdr row t.missingValues k = true := by
              simp [is_marker_cell, hd, hf, hmk]
            simp [hmkc, missing_value_tracker.found_missing_value]
        · rw [if_neg hmk] at h
          exact absurd h (by simp)

/-- When every feature cell before position n is processable and the cell
at position n holds a non-parsing, non-marker value, the detection feature
loop aborts with exit(-3), whatever the starting column number, accumulator
and tracker. -/
theorem fm_featLoop_enum_error (hdr : List String) (row : Row) (i : ℕ) (psmId : RawVal) :
    ∀ (keys : List String) (n0 : ℕ) (el : List ℚ) (t : missing_value_tracker)
      (n : ℕ) (hn : n < keys.length) (s : String),
    (∀ m (hm : m < n), (detected_value hdr row t.missingValues
      (keys.get ⟨m, lt_trans hm hn⟩)).isSome = true) →
    dictGet hdr row (keys.get ⟨n, hn⟩) = some (.str s) →
    isMissingMarker (.str s) t.missingValues = false →
    fm_featLoop hdr row i psmId (List.enumFrom n0 keys) el t = .error (.exitCode (-3)) := by
  intro keys
  induction keys with
  | nil =>
    intro n0 el t n hn s hpre hbad hnm
    exact absurd hn (by simp)
  | cons k rest ih =>
    intro n0 el t n hn s hpre hbad hnm
    simp only [List.enumFrom]
    rw [fm_featLoop]
    cases n with
    | zero =>
      have hbad0 : dictGet hdr row k = some (.str s) := by simpa using hbad
      rw [hbad0]
      simp [pyFloat?, hnm]
    | succ n' =>
      have hd0 := hpre 0 (Nat.succ_pos n')
      have hget0 : (k :: rest).get ⟨0, lt_trans (Nat.succ_pos n') hn⟩ = k := rfl
      rw [hget0] at hd0
      have hn' : n' < rest.length := by
        have := hn
        simp only [List.length_cons] at this
        omega
      have hbad' : dictGet hdr row (rest.get ⟨n', hn'⟩) = some (.str s) := by
        simpa using hbad
      cases hd : dictGet hdr row k with
      | none => simp [detected_value, hd] at hd0
      | some v =>
        dsimp only []
        cases hf : pyFloat? v with
        | some q =>
          dsimp only []
          exact ih (n0 + 1) (el ++ [q]) t n' hn' s
            (fun m hm => by
              have := hpre (m + 1) (Nat.succ_lt_succ hm)
              simpa using this)
            hbad' hnm
        | none =>
          dsimp only []
          have hmk : isMissingMarker v t.missingValues = true := by
            by_contra hc
            simp only [Bool.not_eq_true] at hc
            simp [detected_value, hd, hf, hc] at hd0
          rw [if_pos hmk]
          exact ih (n0 + 1) (el ++ [0]) _ n' hn' s
            (fun m hm => by
              have := hpre (m + 1) (Nat.succ_lt_succ hm)
              rw [found_missing_value_missingValues]
              simpa using this)
            hbad' (by rw [found_missing_value_missingValues]; exact hnm)

/-- Every triple produced from an enumeration starting at n carries a
column number at least n. -/
theorem enumFrom_filterMap_bound (f : String → Bool) (i : ℕ) (psm : RawVal) :
    ∀ (keys : List String) (n : ℕ) (p : ℕ × ℕ × RawVal),
    p ∈ (List.enumFrom n keys).filterMap (fun jk =>
      if f jk.2 then some (i, jk.1, psm) else none) → n ≤ p.2.1 := by
  intro keys
  induction keys with
  | nil => intro n p hp; simp [List.enumFrom] at hp
  | cons k rest ih =>
    intro n p hp
    simp only [List.enumFrom, List.filterMap_cons] at hp
    by_cases hfk : f k
    · simp only [hfk, if_true] at hp
      rcases List.mem_cons.mp hp with rfl | hp
      · simp
      · have := ih (n + 1) p hp
        omega
    · simp only [hfk, if_false] at hp
      have := ih (n + 1) p hp
      omega

/-- The triples produced from an enumeration contain the triple for column
n + m exactly once when the cell at position m qualifies, never
otherwise. -/
theorem enumFrom_filterMap_count (f : String → Bool) (i : ℕ) (psm : RawVal) :
    ∀ (keys : List String) (n m : ℕ) (hm : m < keys.length),
    ((List.enumFrom n keys).filterMap (fun jk =>
      if f jk.2 then some (i, jk.1, psm) else none)).count (i, n + m, psm) =
    if f (keys.get ⟨m, hm⟩) then 1 else 0 := by
  intro keys
  induction keys with
  | nil => intro n m hm; exact absurd hm (by simp)
  | cons k rest ih =>
    intro n m hm
    simp only [List.enumFrom, List.filterMap_cons]
    cases m with
    | zero =>
      have hrec : ((List.enumFrom (n + 1) rest).filterMap (fun jk =>
          if f jk.2 then some (i, jk.1, psm) else none)).count (i, n + 0, psm) = 0 := by
        rw [List.count_eq_zero]
        intro hmem
        have := enumFrom_filterMap_bound f i psm rest (n + 1) _ hmem
        simp at this
      by_cases hfk : f k
      · have hcase : (if f (n, k).2 then some (i, (n, k).1, psm) else none) =
            some (i, n, psm) := by simp [hfk]
        rw [hcase]
        dsimp only []
        rw [List.count_cons, hrec]
        simp [hfk]
      · have hcase : (if f (n, k).2 then some (i, (n, k).1, psm) else none) =
            (none : Option (ℕ × ℕ × RawVal)) := by simp [hfk]
        rw [hcase]
        dsimp only []
        rw [hrec]
        simp [hfk]
    | succ m' =>
      have hm' : m' < rest.length := by
        simp only [List.length_cons] at hm
        omega
      have hih := ih (n + 1) m' hm'
      rw [show n + 1 + m' = n + (m' + 1) by omega] at hih
      have hget : (k :: rest).get ⟨m' + 1, hm⟩ = rest.get ⟨m', hm'⟩ := by
        simp [List.get_eq_getElem]
      by_cases hfk : f k
      · have hcase : (if f (n, k).2 then some (i, (n, k).1, psm) else none) =
            some (i, n, psm) := by simp [hfk]
        rw [hcase]
        dsimp only []
        rw [List.count_cons, hih, hget]
        have hne : ¬((i, n + (m' + 1), psm) = (i, n, psm)) := by
          simp only [Prod.mk.injEq]
          rintro ⟨-, h2, -⟩
          omega
        simp [hne]
      · have hcase : (if f (n, k).2 then some (i, (n, k).1, psm) else none) =
            (none : Option (ℕ × ℕ × RawVal)) := by simp [hfk]
        rw [hcase]
        dsimp only []
        rw [hih, hget]

/-- C8: during the detection pass of find_missingVals, for every record and
every feature column (the loop over keys.enum, with j the position in the
ordered feature-key list established by the header, not the raw file
position): a cell parsing as a float is stored at position j and
contributes no triple; a non-parsing cell equal to a recognized marker
stores the 0.0 placeholder and records exactly one (row, col, identifier)
triple (i, j, psmId); and a non-parsing, non-marker cell aborts the run
with exit(-3). -/
theorem C8_detection_cell_contract :
    (∀ (hdr : List String) (row : Row) (keys : List String) (i : ℕ) (psmId : RawVal)
      (t0 : missing_value_tracker) (el : List ℚ) (t : missing_value_tracker),
      fm_featLoop hdr row i psmId keys.enum [] t0 = .ok (el, t) →
      el = keys.map (fun k => (detected_value hdr row t0.missingValues k).getD 0) ∧
      t.feature_mat_indices_psmIds = t0.feature_mat_indices_psmIds ++
        keys.enum.filterMap (fun jk => if is_marker_cell hdr row t0.missingValues jk.2
          then some (i, jk.1, psmId) else none) ∧
      ∀ j (hj : j < keys.length),
        (∀ q, dictGet hdr row (keys.get ⟨j, hj⟩) = some (.num q) →
          el.getD j 0 = q ∧
          (keys.enum.filterMap (fun jk =>
            if is_marker_cell hdr row t0.missingValues jk.2
            then some (i, jk.1, psmId) else none)).count (i, j, psmId) = 0) ∧
        (∀ s, dictGet hdr row (keys.get ⟨j, hj⟩) = some (.str s) →
          s ∈ t0.missingValues →
          el.getD j 0 = 0 ∧
          (keys.enum.filterMap (fun jk =>
            if is_marker_cell hdr row t0.missingValues jk.2
            then some (i, jk.1, psmId) else none)).count (i, j, psmId) = 1)) ∧
    (∀ (hdr : List String) (row : Row) (keys : List String) (i : ℕ) (psmId : RawVal)
      (t0 : missing_value_tracker) (el : List ℚ) (n : ℕ) (hn : n < keys.length)
      (s : String),
      (∀ m (hm : m < n), (detected_value hdr row t0.missingValues
        (keys.get ⟨m, lt_trans hm hn⟩)).isSome = true) →
      dictGet hdr row (keys.get ⟨n, hn⟩) = some (.str s) →
      s ∉ t0.missingValues →
      fm_featLoop hdr row i psmId keys.enum el t0 = .error (.exitCode (-3))) := by
  constructor
  · intro hdr row keys i psmId t0 el t h
    obtain ⟨hmv, hall, hel, htr⟩ :=
      fm_featLoop_ok_eq hdr row i psmId keys.enum [] t0 (el, t) h
    dsimp only [] at hmv hall hel htr
    have helkeys : el = keys.map
        (fun k => (detected_value hdr row t0.missingValues k).getD 0) := by
      rw [hel]
      simp only [List.nil_append]
      rw [show (fun jk : ℕ × String =>
          (detected_value hdr row t0.missingValues jk.2).getD 0) =
          (fun k => (detected_value hdr row t0.missingValues k).getD 0) ∘ Prod.snd
          from rfl, ← List.map_map, List.enum_eq_enumFrom, List.enumFrom_map_snd]
    refine ⟨helkeys, htr, ?_⟩
    intro j hj
    have hjlen : j < (keys.map
        (fun k => (detected_value hdr row t0.missingValues k).getD 0)).length := by
      simpa using hj
    have hjel : el.getD j 0 =
        (detected_value hdr row t0.missingValues (keys.get ⟨j, hj⟩)).getD 0 := by
      rw [helkeys, List.getD_eq_getElem?_getD, List.getElem?_eq_getElem hjlen]
      simp [List.getElem_map, List.get_eq_getElem]
    have hcnt := enumFrom_filterMap_count
      (fun k => is_marker_cell hdr row t0.missingValues k) i psmId keys 0 j hj
    rw [Nat.zero_add] at hcnt
    constructor
    · intro q hq
      have hq' := hq
      simp only [List.get_eq_getElem] at hq'
      have hmk : is_marker_cell hdr row t0.missingValues (keys.get ⟨j, hj⟩) = false := by
        simp [is_marker_cell, hq', pyFloat?]
      constructor
      · rw [hjel]
        simp [detected_value, hq', pyFloat?]
      · rw [List.enum_eq_enumFrom, hcnt, hmk]
        simp
    · intro s hq hs
      have hq' := hq
      simp only [List.get_eq_getElem] at hq'
      have hmkr : isMissingMarker (.str s) t0.missingValues = true := by
        simpa [isMissingMarker] using hs
      have hmk : is_marker_cell hdr row t0.missingValues (keys.get ⟨j, hj⟩) = true := by
        simp [is_marker_cell, hq', pyFloat?, hmkr]
      constructor
      · rw [hjel]
        simp [detected_value, hq', pyFloat?, hmkr]
      · rw [List.enum_eq_enumFrom, hcnt, hmk]
        simp
  · intro hdr row keys i psmId t0 el n hn s hpre hbad hs
    have hnm : isMissingMarker (.str s) t0.missingValues = false := by
      simpa [isMissingMarker] using hs
    rw [List.enum_eq_enumFrom]
    exact fm_featLoop_enum_error hdr row i psmId keys 0 el t0 n hn s hpre hbad hnm

/-- Witness for C8: on the second exPin row (featA is the marker NA), the
detection loop stores the 0.0 placeholder at feature position 1 and records
exactly one triple (1, 1, t2); replacing the marker by a non-marker string
aborts with exit(-3). -/
theorem C8_detection_witness :
    (([2, 0, 7] : List ℚ).getD 1 0 = 0 ∧
      ((["ScanNr", "featA", "spectral_contrast_angle"].enum).filterMap (fun jk =>
        if is_marker_cell exPin.header
            [RawVal.str "t2", .num 1, .num 2, .str "NA", .num 7, .str "K.CCC.R",
             .str "prot2"]
            (missing_value_tracker.init ["NA", "na"]).missingValues jk.2
        then some (1, jk.1, RawVal.str "t2") else none)).count
        (1, 1, RawVal.str "t2") = 1) ∧
    fm_featLoop exPin.header
      [RawVal.str "t2", .num 1, .num 2, .str "oops", .num 7, .str "K.CCC.R",
       .str "prot2"] 1 (RawVal.str "t2")
      (["ScanNr", "featA", "spectral_contrast_angle"].enum) []
      (missing_value_tracker.init ["NA", "na"]) = .error (.exitCode (-3)) := by
  constructor
  · have h := C8_detection_cell_contract.1 exPin.header
      [RawVal.str "t2", .num 1, .num 2, .str "NA", .num 7, .str "K.CCC.R", .str "prot2"]
      ["ScanNr", "featA", "spectral_contrast_angle"] 1 (RawVal.str "t2")
      (missing_value_tracker.init ["NA", "na"]) [2, 0, 7]
      { missingValues := ["NA", "na"]
        features := ["featA"]
        feature_mat_indices_psmIds := [(1, 1, RawVal.str "t2")] } (by decide)
    exact (h.2.2 1 (by decide)).2 "NA" (by decide) (by decide)
  · exact C8_detection_cell_contract.2 exPin.header
      [RawVal.str "t2", .num 1, .num 2, .str "oops", .num 7, .str "K.CCC.R", .str "prot2"]
      ["ScanNr", "featA", "spectral_contrast_angle"] 1 (RawVal.str "t2")
      (missing_value_tracker.init ["NA", "na"]) [] 1 (by decide) "oops"
      (fun m hm => by
        have hm0 : m = 0 := by omega
        subst hm0
        exact (by decide :
          (detected_value exPin.header
            [RawVal.str "t2", .num 1, .num 2, .str "oops", .num 7, .str "K.CCC.R",
             .str "prot2"]
            (missing_value_tracker.init ["NA", "na"]).missingValues
            "ScanNr").isSome = true))
      (by decide) (by decide)

/-- Reduction of an Except map on a success value. -/
@[simp] theorem exceptMap_ok {ε α β : Type} (a : α) (f : α → β) :
    (Except.ok a : Except ε α).map f = Except.ok (f a) := rfl

/-- Reduction of an Except map on an error value. -/
@[simp] theorem exceptMap_error {ε α β : Type} (e : ε) (f : α → β) :
    (Except.error e : Except ε α).map f = (Except.error e : Except ε β) := rfl

/-- On success, field writing returns one value per output column, each the
dict value of that column. -/
theorem writer_fields_ok (d : String → Option RawVal) :
    ∀ (ks : List String) (out : List RawVal), writer_fields d ks = .ok out →
    out.length = ks.length ∧
    ∀ j (hj : j < ks.length), d (ks.get ⟨j, hj⟩) = some (out.getD j (.str "")) := by
  intro ks
  induction ks with
  | nil =>
    intro out h
    simp only [writer_fields] at h
    cases h
    exact ⟨rfl, fun j hj => absurd hj (by simp)⟩
  | cons k rest ih =>
    intro out h
    rw [writer_fields] at h
    cases hd : d k with
    | none => rw [hd] at h; exact absurd h (by simp)
    | some v =>
      rw [hd] at h
      dsimp only [] at h
      cases hrest : writer_fields d rest with
      | error e => rw [hrest] at h; exact absurd h (by simp)
      | ok fs =>
        rw [hrest] at h
        simp only [exceptMap_ok, Except.ok.injEq] at h
        subst h
        obtain ⟨hlen, hgets⟩ := ih fs hrest
        refine ⟨by simp [hlen], ?_⟩
        intro j hj
        cases j with
        | zero => simpa using hd
        | succ j' =>
          have hj' : j' < rest.length := by
            simp only [List.length_cons] at hj
            omega
          simpa using hgets j' hj'

/-- On success, the write-pass row processing produces exactly the fields of
the substituted row dict: for a flagged row the imputed value exists and the
dict is the substituted one, for any other row it is the original row
dict. -/
theorem writer_process_row_ok (hdr : List String) (psmF na_feat ref_key : String)
    (allKeys : List String) (rows_with_na : List ℕ) (imputed : List (ℕ × ℚ))
    (i : ℕ) (row : Row) (st : DebugState) (fields : List RawVal) (st' : DebugState)
    (h : writer_process_row hdr psmF na_feat ref_key allKeys rows_with_na imputed
      i row st = .ok (fields, st')) :
    (i ∈ rows_with_na → ∃ v, dictLookupLast imputed i = some v ∧
      writer_fields (writer_row_dict hdr row (some v) na_feat) allKeys = .ok fields) ∧
    (i ∉ rows_with_na →
      writer_fields (writer_row_dict hdr row none na_feat) allKeys = .ok fields) := by
  rw [writer_process_row] at h
  cases hpsm : dictGet hdr row psmF with
  | none => rw [hpsm] at h; exact absurd h (by simp)
  | some pv =>
    rw [hpsm] at h
    dsimp only [exceptBind_ok, exceptBind_error] at h
    by_cases hna : i ∈ rows_with_na
    · rw [if_pos hna] at h
      cases hv : dictLookupLast imputed i with
      | none => rw [hv] at h; exact absurd h (by simp)
      | some v =>
        rw [hv] at h
        dsimp only [exceptBind_ok, exceptBind_error] at h
        cases hdb : writer_debug_update (writer_row_dict hdr row (some v) na_feat)
            (some v) na_feat ref_key st with
        | error e => rw [hdb] at h; exact absurd h (by simp)
        | ok st1 =>
          rw [hdb] at h
          dsimp only [exceptBind_ok, exceptBind_error] at h
          cases hfs : writer_fields (writer_row_dict hdr row (some v) na_feat) allKeys with
          | error e => rw [hfs] at h; exact absurd h (by simp)
          | ok fs =>
            rw [hfs] at h
            dsimp only [exceptBind_ok, exceptBind_error] at h
            simp only [Except.ok.injEq, Prod.mk.injEq] at h
            obtain ⟨hfields, hst⟩ := h
            subst hfields
            exact ⟨fun _ => ⟨v, rfl, hfs⟩, fun hcon => absurd hna hcon⟩
    · rw [if_neg hna] at h
      cases hdb : writer_debug_update (writer_row_dict hdr row none na_feat)
          none na_feat ref_key st with
      | error e => rw [hdb] at h; exact absurd h (by simp)
      | ok st1 =>
        rw [hdb] at h
        dsimp only [exceptBind_ok, exceptBind_error] at h
        cases hfs : writer_fields (writer_row_dict hdr row none na_feat) allKeys with
        | error e => rw [hfs] at h; exact absurd h (by simp)
        | ok fs =>
          rw [hfs] at h
          dsimp only [exceptBind_ok, exceptBind_error] at h
          simp only [Except.ok.injEq, Prod.mk.injEq] at h
          obtain ⟨hfields, hst⟩ := h
          subst hfields
          exact ⟨fun hcon => absurd hcon hna, fun _ => rfl⟩

/-- C9: on success the write pass emits exactly one output row per input
row, in input order; for a row not flagged missing every written field is
the original field value unchanged; for a flagged row the designated
feature column carries the imputed value mapped to that row index and every
other column the original value. -/
theorem C9_write_pass_row_contract (hdr : List String) (psmF na_feat ref_key : String)
    (allKeys : List String) (rows_with_na : List ℕ) (imputed : List (ℕ × ℚ)) :
    ∀ (rows : List Row) (i0 : ℕ) (st0 : DebugState) (out : List (List RawVal))
      (stf : DebugState),
    writer_rows hdr psmF na_feat ref_key allKeys rows_with_na imputed
      rows i0 st0 = .ok (out, stf) →
    out.length = rows.length ∧
    ∀ m (hm : m < rows.length) (j : ℕ) (hj : j < allKeys.length),
      ((i0 + m) ∉ rows_with_na →
        (out.getD m []).getD j (.str "") =
          (dictGet hdr (rows.get ⟨m, hm⟩) (allKeys.get ⟨j, hj⟩)).getD (.str "") ∧
        (dictGet hdr (rows.get ⟨m, hm⟩) (allKeys.get ⟨j, hj⟩)).isSome = true) ∧
      ((i0 + m) ∈ rows_with_na → allKeys.get ⟨j, hj⟩ ≠ na_feat →
        (out.getD m []).getD j (.str "") =
          (dictGet hdr (rows.get ⟨m, hm⟩) (allKeys.get ⟨j, hj⟩)).getD (.str "") ∧
        (dictGet hdr (rows.get ⟨m, hm⟩) (allKeys.get ⟨j, hj⟩)).isSome = true) ∧
      ((i0 + m) ∈ rows_with_na → allKeys.get ⟨j, hj⟩ = na_feat →
        ∃ v, dictLookupLast imputed (i0 + m) = some v ∧
          (out.getD m []).getD j (.str "") = .num v) := by
  intro rows
  induction rows with
  | nil =>
    intro i0 st0 out stf h
    simp only [writer_rows] at h
    cases h
    exact ⟨rfl, fun m hm => absurd hm (by simp)⟩
  | cons row rest ih =>
    intro i0 st0 out stf h
    rw [writer_rows] at h
    cases hpr : writer_process_row hdr psmF na_feat ref_key allKeys rows_with_na
        imputed i0 row st0 with
    | error e => rw [hpr] at h; exact absurd h (by simp)
    | ok pr =>
      obtain ⟨fields, st1⟩ := pr
      rw [hpr] at h
      dsimp only [exceptBind_ok, exceptBind_error] at h
      cases hwr : writer_rows hdr psmF na_feat ref_key allKeys rows_with_na imputed
          rest (i0 + 1) st1 with
      | error e => rw [hwr] at h; exact absurd h (by simp)
      | ok wr =>
        obtain ⟨out', stf'⟩ := wr
        rw [hwr] at h
        dsimp only [exceptBind_ok, exceptBind_error] at h
        simp only [Except.ok.injEq, Prod.mk.injEq] at h
        obtain ⟨hout, hst⟩ := h
        subst hout
        obtain ⟨hlen', hcells'⟩ := ih (i0 + 1) st1 out' stf' hwr
        obtain ⟨hflag, hunflag⟩ := writer_process_row_ok hdr psmF na_feat ref_key
          allKeys rows_with_na imputed i0 row st0 fields st1 hpr
        refine ⟨by simp [hlen'], ?_⟩
        intro m hm j hj
        cases m with
        | zero =>
          simp only [Nat.add_zero]
          have hget0 : (row :: rest).get ⟨0, hm⟩ = row := rfl
          rw [hget0]
          have hout0 : ((fields :: out').getD 0 []) = fields := rfl
          rw [hout0]
          by_cases hna : i0 ∈ rows_with_na
          · obtain ⟨v, hv, hfs⟩ := hflag hna
            obtain ⟨hlenf, hgets⟩ := writer_fields_ok _ _ _ hfs
            have hdj := hgets j hj
            refine ⟨fun hcon => absurd hna hcon, ?_, ?_⟩
            · intro _ hne
              have hbeq : (allKeys.get ⟨j, hj⟩ == na_feat) = false := by
                simpa [beq_iff_eq] using hne
              rw [writer_row_dict] at hdj
              simp only [hbeq, Bool.false_eq_true, if_false] at hdj
              exact ⟨by rw [hdj]; rfl, by rw [hdj]; rfl⟩
            · intro _ heq
              have hbeq : (allKeys.get ⟨j, hj⟩ == na_feat) = true := by
                simpa [beq_iff_eq] using heq
              rw [writer_row_dict] at hdj
              simp only [hbeq, if_true, Option.some.injEq] at hdj
              exact ⟨v, hv, hdj.symm⟩
          · have hfs := hunflag hna
            obtain ⟨hlenf, hgets⟩ := writer_fields_ok _ _ _ hfs
            have hdj := hgets j hj
            rw [writer_row_dict] at hdj
            refine ⟨?_, fun hcon => absurd hcon hna, fun hcon => absurd hcon hna⟩
            intro _
            exact ⟨by rw [hdj]; rfl, by rw [hdj]; rfl⟩
        | succ m' =>
          have hm' : m' < rest.length := by
            simp only [List.length_cons] at hm
            omega
          have hc := hcells' m' hm' j hj
          have hgetm : (row :: rest).get ⟨m' + 1, hm⟩ = rest.get ⟨m', hm'⟩ := by
            simp [List.get_eq_getElem]
          have houtm : ((fields :: out').getD (m' + 1) []) = out'.getD m' [] := rfl
          have harith : i0 + (m' + 1) = i0 + 1 + m' := by omega
          rw [hgetm, houtm, harith]
          exact hc

/-- Witness for C9: the write pass on exPin (rows 1 and 2 flagged, imputed
value 3 for both) emits three rows, and at row 1 the designated column
featA (output position 3) carries the imputed value. -/
theorem C9_write_pass_witness :
    writer_rows exPin.header "SpecId" "featA" "spectral_contrast_angle"
      ["SpecId", "Label", "ScanNr", "featA", "spectral_contrast_angle",
       "Peptide", "Proteins"] [1, 2] [(1, 3), (2, 3)] exPin.rows 0 DebugState.init =
      .ok ([[.str "t1", .num 1, .num 1, .num 2, .num 5, .str "K.AAA.R", .str "prot1"],
            [.str "t2", .num 1, .num 2, .num 3, .num 7, .str "K.CCC.R", .str "prot2"],
            [.str "d1", .num (-1), .num 3, .num 3, .num 4, .str "K.DDD.R", .str "prot3"]],
        { broken_constraints := 2
          non_imputed_vals := [2]
          imputed_vals := [3, 3]
          target_imputed_vals := [3]
          decoy_imputed_vals := [3] }) ∧
    ([[.str "t1", .num 1, .num 1, .num 2, .num 5, .str "K.AAA.R", .str "prot1"],
      [.str "t2", .num 1, .num 2, .num 3, .num 7, .str "K.CCC.R", .str "prot2"],
      [.str "d1", .num (-1), .num 3, .num 3, .num 4, .str "K.DDD.R", .str "prot3"]] :
      List (List RawVal)).length = exPin.rows.length ∧
    (∃ v, dictLookupLast [(1, 3), (2, 3)] (0 + 1) = some v ∧
      (([[.str "t1", .num 1, .num 1, .num 2, .num 5, .str "K.AAA.R", .str "prot1"],
         [.str "t2", .num 1, .num 2, .num 3, .num 7, .str "K.CCC.R", .str "prot2"],
         [.str "d1", .num (-1), .num 3, .num 3, .num 4, .str "K.DDD.R", .str "prot3"]] :
        List (List RawVal)).getD 1 []).getD 3 (.str "") = .num v) := by
  have hrun : writer_rows exPin.header "SpecId" "featA" "spectral_contrast_angle"
      ["SpecId", "Label", "ScanNr", "featA", "spectral_contrast_angle",
       "Peptide", "Proteins"] [1, 2] [(1, 3), (2, 3)] exPin.rows 0 DebugState.init =
      .ok ([[.str "t1", .num 1, .num 1, .num 2, .num 5, .str "K.AAA.R", .str "prot1"],
            [.str "t2", .num 1, .num 2, .num 3, .num 7, .str "K.CCC.R", .str "prot2"],
            [.str "d1", .num (-1), .num 3, .num 3, .num 4, .str "K.DDD.R", .str "prot3"]],
        { broken_constraints := 2
          non_imputed_vals := [2]
          imputed_vals := [3, 3]
          target_imputed_vals := [3]
          decoy_imputed_vals := [3] }) := by decide
  have h := C9_write_pass_row_contract exPin.header "SpecId" "featA"
    "spectral_contrast_angle"
    ["SpecId", "Label", "ScanNr", "featA", "spectral_contrast_angle",
     "Peptide", "Proteins"] [1, 2] [(1, 3), (2, 3)] exPin.rows 0 DebugState.init
    _ _ hrun
  exact ⟨hrun, h.1, (h.2 1 (by decide) 3 (by decide)).2.2 (by decide) (by decide)⟩

/-- C10 as amended: the consistency check itself is purely diagnostic — for
any row whose debug lookups succeed (for a flagged row: the hard-coded
reference column is present and float-parses, and the label parses to 1 or
-1; for any other row: the designated feature value float-parses), the
debug block returns a new collection state and at most increments the
violation counter by one; it never modifies the fields that get written.
The claim fails only because those lookups can fail on accepted files (see
the counterexample, where the reference column is absent). -/
theorem C10_debug_check_amended (d : String → Option RawVal) (vimp : Option ℚ)
    (na_feat ref_key : String) (st : DebugState)
    (href : vimp.isSome = true → ((d ref_key).bind pyFloat?).isSome = true)
    (hlab : vimp.isSome = true → ((d "Label").bind pyInt? = some 1 ∨
      (d "Label").bind pyInt? = some (-1)))
    (hna : vimp.isNone = true → ((d na_feat).bind pyFloat?).isSome = true) :
    ∃ st', writer_debug_update d vimp na_feat ref_key st = .ok st' ∧
      st'.broken_constraints ≤ st.broken_constraints + 1 := by
  cases vimp with
  | none =>
    have h := hna rfl
    obtain ⟨q, hq⟩ := Option.isSome_iff_exists.mp h
    obtain ⟨nv, hnv, hnq⟩ := Option.bind_eq_some.mp hq
    refine ⟨{ st with non_imputed_vals := st.non_imputed_vals ++ [q] }, ?_, by simp⟩
    simp [writer_debug_update, hnv, hnq]
  | some v =>
    have h1 := href rfl
    obtain ⟨rk, hrk⟩ := Option.isSome_iff_exists.mp h1
    obtain ⟨rv, hrv, hrq⟩ := Option.bind_eq_some.mp hrk
    rcases hlab rfl with hl | hl
    · obtain ⟨lv, hlv, hlq⟩ := Option.bind_eq_some.mp hl
      refine ⟨{ st with
          imputed_vals := st.imputed_vals ++ [v]
          broken_constraints := st.broken_constraints +
            (if rk ≠ 0 ∧ v ≠ 0 ∧ v < rk then 1 else 0)
          target_imputed_vals := st.target_imputed_vals ++ [v] }, ?_, ?_⟩
      · simp [writer_debug_update, hrv, hrq, hlv, hlq]
      · dsimp only []
        split <;> omega
    · obtain ⟨lv, hlv, hlq⟩ := Option.bind_eq_some.mp hl
      refine ⟨{ st with
          imputed_vals := st.imputed_vals ++ [v]
          broken_constraints := st.broken_constraints +
            (if rk ≠ 0 ∧ v ≠ 0 ∧ v < rk then 1 else 0)
          decoy_imputed_vals := st.decoy_imputed_vals ++ [v] }, ?_, ?_⟩
      · simp [writer_debug_update, hrv, hrq, hlv, hlq]
      · dsimp only []
        split <;> omega

/-- Witness for C10: the debug block on the flagged second exPin row (with
its reference value 7 present and label 1) succeeds. -/
theorem C10_debug_check_witness :
    ∃ st', writer_debug_update
      (writer_row_dict exPin.header (exPin.rows.getD 1 []) (some 3) "featA")
      (some 3) "featA" "spectral_contrast_angle" DebugState.init = .ok st' ∧
      st'.broken_constraints ≤ DebugState.init.broken_constraints + 1 :=
  C10_debug_check_amended
    (writer_row_dict exPin.header (exPin.rows.getD 1 []) (some 3) "featA")
    (some 3) "featA" "spectral_contrast_angle" DebugState.init
    (by decide) (by decide) (by decide)
